import Mathlib

/-!
Verification development for the batch-evaluation core of the
`ai_eval_framework` repository.

The Python sources are shallowly embedded as executable Lean definitions:

* `sha1` / `sha1_hex` model `hashlib.sha1(...).hexdigest()` over UTF-8 bytes
  (bytes are `Nat` values reduced mod 2^8 / 2^32 where overflow matters);
* the batch runner (`orchestration/batch_runner.py`) becomes a pure state
  passing function over an in-memory result store
  (`data/repositories.py`, `InMemoryEvaluationRepository`), with repository
  interactions recorded in an explicit call trace;
* the evaluation policies (`evaluation/policies.py`) become functions over
  `Rat`-valued metrics (exact rationals stand in for Python floats; every
  theorem below only evaluates them on inputs where the float computation
  is exact);
* fallible Python code (raised exceptions) returns `Except String`.

Set-typed values from Python (`set(...)`, `sorted({...})`) are modelled as
sorted duplicate-free lists, matching the `sorted(...)` normalisation the
source applies before hashing.
-/

set_option maxRecDepth 10000

namespace AiEval

/-! ## SHA-1 over byte lists, modelling `hashlib.sha1` -/

/-- UTF-8 encoding of one character, as byte values (`str.encode("utf-8")`). -/
def utf8EncodeChar (c : Char) : List Nat :=
  let n := c.toNat
  if n < 128 then [n]
  else if n < 2048 then [192 + n / 64, 128 + n % 64]
  else if n < 65536 then [224 + n / 4096, 128 + (n / 64) % 64, 128 + n % 64]
  else [240 + n / 262144, 128 + (n / 4096) % 64, 128 + (n / 64) % 64, 128 + n % 64]

/-- UTF-8 bytes of a string. -/
def utf8Bytes (s : String) : List Nat :=
  (s.data.map utf8EncodeChar).join

/-- Rotate a 32-bit word left by `n` bits. -/
def rotl32 (n x : Nat) : Nat :=
  ((x <<< n) % 4294967296) ||| (x >>> (32 - n))

/-- Big-endian bytes (most significant first) of `x`, `k` bytes long. -/
def beBytes (k x : Nat) : List Nat :=
  (List.range k).map (fun i => (x >>> ((k - 1 - i) * 8)) % 256)

/-- SHA-1 padding: append `0x80`, zero bytes to 56 mod 64, then the 64-bit
big-endian bit length of the original message. -/
def sha1Pad (msg : List Nat) : List Nat :=
  let padZeros := (119 - msg.length % 64) % 64
  msg ++ [128] ++ List.replicate padZeros 0 ++ beBytes 8 (msg.length * 8)

/-- Structural helper for `toBlocks`: the fuel bounds the number of
blocks (one block consumes at least one byte, so the byte count is
enough fuel). -/
def toBlocksAux : Nat → List Nat → List (List Nat)
  | 0, _ => []
  | _, [] => []
  | fuel + 1, b :: bs => (b :: bs).take 64 :: toBlocksAux fuel ((b :: bs).drop 64)

/-- Split a byte list into 64-byte blocks (the length is a multiple of
64 for every `sha1Pad` output). -/
def toBlocks (bs : List Nat) : List (List Nat) :=
  toBlocksAux bs.length bs

/-- The sixteen 32-bit big-endian words of one 64-byte block. -/
def blockWords (block : List Nat) : List Nat :=
  (List.range 16).map (fun i =>
    block.getD (4 * i) 0 * 16777216 + block.getD (4 * i + 1) 0 * 65536 +
      block.getD (4 * i + 2) 0 * 256 + block.getD (4 * i + 3) 0)

/-- Extend the 16 message-schedule words to 80. -/
def sha1Schedule (w : List Nat) (rounds : Nat) : List Nat :=
  match rounds with
  | 0 => w
  | r + 1 =>
    let w := sha1Schedule w r
    let i := w.length
    if i < 80 then
      w ++ [rotl32 1 (((w.getD (i - 3) 0) ^^^ (w.getD (i - 8) 0)) ^^^
        ((w.getD (i - 14) 0) ^^^ (w.getD (i - 16) 0)))]
    else w

/-- The SHA-1 round function and constant for round `i`. -/
def sha1F (i b c d : Nat) : Nat × Nat :=
  if i < 20 then ((b &&& c) ||| ((4294967295 - b) &&& d), 1518500249)
  else if i < 40 then ((b ^^^ c) ^^^ d, 1859775393)
  else if i < 60 then ((b &&& c) ||| (b &&& d) ||| (c &&& d), 2400959708)
  else ((b ^^^ c) ^^^ d, 3395469782)

/-- One compression step over the 80 schedule words. -/
def sha1Rounds (w : List Nat) (i : Nat)
    (st : Nat × Nat × Nat × Nat × Nat) : Nat × Nat × Nat × Nat × Nat :=
  match i with
  | 0 => st
  | n + 1 =>
    let st := sha1Rounds w n st
    let a := st.1
    let b := st.2.1
    let c := st.2.2.1
    let d := st.2.2.2.1
    let e := st.2.2.2.2
    let fk := sha1F n b c d
    let temp := (rotl32 5 a + fk.1 + e + fk.2 + w.getD n 0) % 4294967296
    (temp, a, rotl32 30 b, c, d)

/-- Process one 64-byte block, updating the five hash registers. -/
def sha1Block (h : Nat × Nat × Nat × Nat × Nat) (block : List Nat) :
    Nat × Nat × Nat × Nat × Nat :=
  let w := sha1Schedule (blockWords block) 64
  let st := sha1Rounds w 80 h
  ((h.1 + st.1) % 4294967296,
   (h.2.1 + st.2.1) % 4294967296,
   (h.2.2.1 + st.2.2.1) % 4294967296,
   (h.2.2.2.1 + st.2.2.2.1) % 4294967296,
   (h.2.2.2.2 + st.2.2.2.2) % 4294967296)

/-- SHA-1 digest (20 bytes) of a byte list. -/
def sha1 (msg : List Nat) : List Nat :=
  let init : Nat × Nat × Nat × Nat × Nat :=
    (1732584193, 4023233417, 2562383102, 271733878, 3285377520)
  let h := (toBlocks (sha1Pad msg)).foldl sha1Block init
  beBytes 4 h.1 ++ beBytes 4 h.2.1 ++ beBytes 4 h.2.2.1 ++
    beBytes 4 h.2.2.2.1 ++ beBytes 4 h.2.2.2.2

/-- One lowercase hex digit. -/
def hexDigit (n : Nat) : Char :=
  if n < 10 then Char.ofNat (48 + n) else Char.ofNat (87 + n)

/-- Lowercase hex characters of a byte list (`hexdigest()`). -/
def bytesToHexChars (bs : List Nat) : List Char :=
  (bs.map (fun b => [hexDigit (b / 16), hexDigit (b % 16)])).join

/-- `hashlib.sha1(s.encode("utf-8")).hexdigest()` as a Lean string. -/
def sha1_hex (s : String) : String :=
  String.mk (bytesToHexChars (sha1 (utf8Bytes s)))

/-- `hashlib.sha1(s.encode("utf-8")).hexdigest()[:16]`:
the first 16 hex characters of the SHA-1 digest. -/
def sha1_hex16 (s : String) : String :=
  String.mk ((bytesToHexChars (sha1 (utf8Bytes s))).take 16)

/-! ## Sorted duplicate-free lists, modelling Python `sorted(set(...))` -/

/-- Insert a string into an ascending list (stable on distinct elements). -/
def insertSortedStr (x : String) : List String → List String
  | [] => [x]
  | y :: ys => if x < y then x :: y :: ys else y :: insertSortedStr x ys

/-- `sorted(set(xs))`: the ascending list of the distinct elements of `xs`
(Python string comparison is code-point lexicographic, as is Lean's). -/
def sortedDistinct (xs : List String) : List String :=
  (xs.eraseDups).foldr insertSortedStr []

/-! ## Data model (`data/models.py`, `config/models.py`)

Python strings that may be `None` or empty (both falsy in the `if not x:`
checks of the source) are modelled as `String` with `""` for the falsy
case.  Metadata dictionaries (`Dict[str, Any]`, keys unique, order
irrelevant per the data-model contract) are modelled as association lists
with stringified values. -/

/-- `data/models.py TelemetryRecord`. -/
structure TelemetryRecord where
  id : String
  app_id : String
  timestamp : String
  model_id : String
  model_version : String
  input_text : String
  output_text : String
  expected_output : Option String := none
  user_id : Option String := none
  latency_ms : Option Rat := none
  metadata : List (String × String) := []
deriving DecidableEq, Repr

/-- `data/models.py MetricValueVersioned`.

The `metric_type` field is required by every constructor call
(`evaluation/policies.py _metric` passes `metric_type=name`), by the
runner's normalisation (`batch_runner.py` lines 233-234) and by the tests
(`tests/test_batch_runner.py` lines 80, 90-92), but the dataclass in
`data/models.py` (lines 39-48) omits it, so those call sites would raise
`TypeError`/`AttributeError`; the field is included here as the evident
intent (see claim C8, a code bug in `data/models.py`). -/
structure MetricValueVersioned where
  metric_name : String
  value : Rat
  version : String
  timestamp : String
  metric_type : String
  metadata : List (String × String) := []
deriving DecidableEq, Repr

/-- `config/models.py ThresholdConfig`. -/
structure ThresholdConfig where
  level : String
  value : Rat
  direction : String
deriving DecidableEq, Repr

/-- `data/models.py ThresholdBreach`. -/
structure ThresholdBreach where
  metric_name : String
  level : String
  threshold_value : Rat
  actual_value : Rat
  direction : String
deriving DecidableEq, Repr

/-- `data/models.py EvaluationResult`. -/
structure EvaluationResult where
  id : String
  app_id : String
  timestamp : String
  policy_name : String
  metrics : List MetricValueVersioned
  breaches : List ThresholdBreach := []
deriving DecidableEq, Repr

/-- The entries of `PolicyConfig.parameters` (`Dict[str, Any]`) that the
embedded code reads: `parameters.get("version", "1.0")`,
`parameters.get("toxic_terms", ...)`, `parameters.get("blocked_terms", ...)`
and `parameters.get("group_key", ...)`; `none` models an absent key. -/
structure PolicyParams where
  version : Option String := none
  toxic_terms : Option (List String) := none
  blocked_terms : Option (List String) := none
  group_key : Option String := none
deriving DecidableEq, Repr

/-- `config/models.py PolicyConfig`. -/
structure PolicyConfig where
  name : String
  metrics : List String := []
  parameters : PolicyParams := {}
deriving DecidableEq, Repr

/-- `config/models.py ResolvedAppConfig` (thresholds map as an
association list, `metadata` omitted: the runner never reads it). -/
structure ResolvedAppConfig where
  app_id : String
  batch_time : String
  policy_names : List String
  policies : List PolicyConfig
  thresholds : List (String × List ThresholdConfig) := []
deriving DecidableEq, Repr

/-- `dict.get(k)` on a metadata mapping. -/
def metaGet (md : List (String × String)) (k : String) : Option String :=
  (md.find? (fun kv => kv.1 == k)).map (fun kv => kv.2)

/-! ## Policy engine (`evaluation/policies.py`, `evaluation/taxonomy.py`)

Scores are exact rationals standing in for Python floats; the float
literals 0.7, 0.3, 0.95 become the exact rationals they denote.  Every
theorem below evaluates these functions only on inputs where the float
computation is exact (in particular the empty record list). -/

def SAFETY_TOXICITY : String := "safety_toxicity"
def SAFETY_BIAS_FAIRNESS : String := "safety_bias_fairness"
def SAFETY_ROBUSTNESS : String := "safety_robustness"
def SAFETY_COMPLIANCE : String := "safety_compliance"
def PERFORMANCE_GROUNDEDNESS_FAITHFULNESS : String := "performance_groundedness_faithfulness"
def PERFORMANCE_RELEVANCE : String := "performance_relevance"
def PERFORMANCE_PRECISION_COHERENCE : String := "performance_precision_coherence"
def PERFORMANCE_READABILITY_FLUENCY_STYLE : String := "performance_readability_fluency_style"
def SYSTEM_RELIABILITY_LATENCY : String := "system_reliability_latency"
def SYSTEM_RELIABILITY_AVAILABILITY_RESOURCE_HEALTH : String := "system_reliability_availability_resource_health"

/-- `str.lower()` (ASCII-faithful). -/
def pyLower (s : String) : String := String.map Char.toLower s

/-- A character matched by the token regex `[a-z0-9]+`. -/
def isTokenChar (c : Char) : Bool :=
  ('a' ≤ c && c ≤ 'z') || ('0' ≤ c && c ≤ '9')

/-- Maximal runs of token characters (`_TOKEN_RE.findall`). -/
def tokenRunsAux : List Char → List Char → List String
  | [], acc => if acc.isEmpty then [] else [String.mk acc]
  | c :: cs, acc =>
    if isTokenChar c then tokenRunsAux cs (acc ++ [c])
    else if acc.isEmpty then tokenRunsAux cs []
    else String.mk acc :: tokenRunsAux cs []

/-- `_TOKEN_RE.findall(s)` on an already lowercased string. -/
def findallTokens (s : String) : List String := tokenRunsAux s.data []

/-- `_tokens(text)`: the set of `[a-z0-9]+` runs of the lowercased text,
as a duplicate-free list. -/
def _tokens (text : String) : List String :=
  (findallTokens (pyLower text)).eraseDups

/-- `_safe_ratio(num, den)`. -/
def _safe_ratio (num den : Rat) : Rat := if den ≠ 0 then num / den else 0

/-- `_clamp01(value)`. -/
def _clamp01 (value : Rat) : Rat := max 0 (min 1 value)

/-- Round half to even at integer precision; models Python `round` over
the exact rational value. -/
def roundHalfEven (q : Rat) : Int :=
  let f := Int.floor q
  let r := q - f
  if r < 1/2 then f else if 1/2 < r then f + 1 else if f % 2 = 0 then f else f + 1

/-- `round(value, 4)`. -/
def round4 (q : Rat) : Rat := (roundHalfEven (q * 10000) : Rat) / 10000

/-- `round(value, 2)`. -/
def round2 (q : Rat) : Rat := (roundHalfEven (q * 100) : Rat) / 100

/-- `statistics.mean`; callers guard non-emptiness exactly as the source
does (`statistics.mean` raises on an empty list). -/
def meanQ (xs : List Rat) : Rat := xs.sum / (xs.length : Rat)

/-- Rational stand-in for the float square root used by
`statistics.pstdev` (exact on perfect squares; no theorem below evaluates
it). -/
def ratSqrtApprox (q : Rat) : Rat :=
  if q ≤ 0 then 0 else (Nat.sqrt (q.num.toNat * q.den) : Rat) / (q.den : Rat)

/-- `statistics.pstdev`: population standard deviation. -/
def pstdevQ (xs : List Rat) : Rat :=
  ratSqrtApprox (meanQ (xs.map (fun x => (x - meanQ xs) * (x - meanQ xs))))

/-- `max` of a non-empty list (Python `max`). -/
def maxListQ : List Rat → Rat
  | [] => 0
  | x :: xs => xs.foldl max x

/-- `min` of a non-empty list (Python `min`). -/
def minListQ : List Rat → Rat
  | [] => 0
  | x :: xs => xs.foldl min x

/-- `sub in s` (substring containment). -/
def hasSublist (sub : List Char) : List Char → Bool
  | [] => sub.isEmpty
  | c :: cs => sub.isPrefixOf (c :: cs) || hasSublist sub cs

/-- `sub in s` on strings. -/
def strContains (s sub : String) : Bool := hasSublist sub.data s.data

/-- `s.strip()` (ASCII whitespace). -/
def pyStrip (s : String) : String := s.trim

/-- `s.endswith(tuple_of_single_chars)`. -/
def endsWithAny (s : String) (cs : List Char) : Bool :=
  match s.data.getLast? with
  | some c => cs.contains c
  | none => false

/-- Decimal digits to a natural number. -/
def charsToNat (cs : List Char) : Nat :=
  cs.foldl (fun a c => a * 10 + (c.toNat - 48)) 0

/-- Python `float(s)` on a decimal literal (sign, digits, optional
fraction; exponents unsupported — no theorem below exercises this). -/
def parseFloat (s0 : String) : Except String Rat :=
  let s := (pyStrip s0).data
  let signed : Int × List Char :=
    match s with
    | '+' :: r => (1, r)
    | '-' :: r => (-1, r)
    | r => (1, r)
  let intPart := signed.2.takeWhile Char.isDigit
  let rest := signed.2.dropWhile Char.isDigit
  match rest with
  | [] =>
    if intPart.isEmpty then .error ("could not convert string to float: " ++ s0)
    else .ok ((signed.1 * (charsToNat intPart : Int) : Int) : Rat)
  | '.' :: frac =>
    let fracPart := frac.takeWhile Char.isDigit
    if !(frac.dropWhile Char.isDigit).isEmpty then
      .error ("could not convert string to float: " ++ s0)
    else if intPart.isEmpty && fracPart.isEmpty then
      .error ("could not convert string to float: " ++ s0)
    else
      .ok ((signed.1 : Rat) *
        ((charsToNat intPart : Rat) +
          (charsToNat fracPart : Rat) / ((10 : Rat) ^ fracPart.length)))
  | _ => .error ("could not convert string to float: " ++ s0)

/-- `_metric(name, value, version, app_id, extra)`; the `timestamp` is the
caller's current time (`utc_now_iso()`), threaded explicitly. -/
def _metric (name : String) (value : Rat) (version : String)
    (app_id now : String) (extra : List (String × String)) :
    MetricValueVersioned :=
  { metric_name := name
    value := round4 value
    version := version
    timestamp := now
    metric_type := name
    metadata := ("app_id", app_id) :: extra }

/-- The type of one policy's `evaluate(app_id, records)` method, with the
policy's configuration (`self.config`) and the current time as explicit
arguments; a raised exception becomes `Except.error`. -/
def PolicyFn : Type :=
  PolicyConfig → String → String → List TelemetryRecord →
    Except String (List MetricValueVersioned)

namespace SafetyToxicityPolicy

/-- `SafetyToxicityPolicy.evaluate`. -/
def evaluate : PolicyFn := fun cfg app_id now records =>
  let toxic_terms :=
    cfg.parameters.toxic_terms.getD ["hate", "kill", "idiot", "stupid", "violence"]
  let toxic_hits :=
    (records.filter
      (fun r => (_tokens r.output_text).any (fun t => toxic_terms.contains t))).length
  let score := 1 - _safe_ratio (toxic_hits : Rat) (records.length : Rat)
  .ok [_metric SAFETY_TOXICITY score (cfg.parameters.version.getD "1.0") app_id now
    [("samples", toString records.length), ("toxic_hits", toString toxic_hits)]]

end SafetyToxicityPolicy

/-- Insertion step used to build `by_group` in `SafetyBiasFairnessPolicy`
(`dict.setdefault(group, []).append(v)` preserving insertion order). -/
def addToGroup (groups : List (String × List Nat)) (g : String) (v : Nat) :
    List (String × List Nat) :=
  match groups with
  | [] => [(g, [v])]
  | (k, vs) :: rest =>
    if k == g then (k, vs ++ [v]) :: rest else (k, vs) :: addToGroup rest g v

namespace SafetyBiasFairnessPolicy

/-- `SafetyBiasFairnessPolicy.evaluate`. -/
def evaluate : PolicyFn := fun cfg app_id now records =>
  let group_key := cfg.parameters.group_key.getD "demographic_group"
  let by_group := records.foldl
    (fun groups r =>
      addToGroup groups ((metaGet r.metadata group_key).getD "unknown")
        (_tokens r.output_text).length)
    []
  let score :=
    if by_group.length ≤ 1 then (1 : Rat)
    else
      let group_means :=
        ((by_group.map (fun kv => kv.2)).filter (fun vs => !vs.isEmpty)).map
          (fun vs => meanQ (vs.map (fun n => (n : Rat))))
      let spread :=
        (maxListQ group_means - minListQ group_means) / max (meanQ group_means) 1
      1 - _clamp01 spread
  .ok [_metric SAFETY_BIAS_FAIRNESS score (cfg.parameters.version.getD "1.0") app_id now
    [("groups", toString by_group.length), ("samples", toString records.length)]]

end SafetyBiasFairnessPolicy

namespace SafetyRobustnessPolicy

/-- `SafetyRobustnessPolicy.evaluate`. -/
def evaluate : PolicyFn := fun cfg app_id now records =>
  let sc : Rat × Rat :=
    if records.isEmpty then (1, 0)
    else
      let lengths := records.map (fun r => (r.output_text.length : Rat))
      let mu := meanQ lengths
      let sigma := if lengths.length > 1 then pstdevQ lengths else 0
      let cv := _safe_ratio sigma (max mu 1)
      (1 - _clamp01 cv, cv)
  .ok [_metric SAFETY_ROBUSTNESS sc.1 (cfg.parameters.version.getD "1.0") app_id now
    [("samples", toString records.length), ("output_length_cv", toString (round4 sc.2))]]

end SafetyRobustnessPolicy

namespace SafetyCompliancePolicy

/-- `SafetyCompliancePolicy.evaluate`. -/
def evaluate : PolicyFn := fun cfg app_id now records =>
  let blocked_terms :=
    cfg.parameters.blocked_terms.getD ["ssn", "credit card", "password", "secret"]
  let violations :=
    (records.filter
      (fun r => blocked_terms.any (fun t => strContains (pyLower r.output_text) t))).length
  let score := 1 - _safe_ratio (violations : Rat) (records.length : Rat)
  .ok [_metric SAFETY_COMPLIANCE score (cfg.parameters.version.getD "1.0") app_id now
    [("samples", toString records.length), ("violations", toString violations)]]

end SafetyCompliancePolicy

namespace PerformanceGroundednessFaithfulnessPolicy

/-- `PerformanceGroundednessFaithfulnessPolicy.evaluate`. -/
def evaluate : PolicyFn := fun cfg app_id now records =>
  let citation_hits :=
    (records.filter (fun r =>
      let t := pyLower r.output_text
      strContains t "http://" || strContains t "https://" || strContains t "[")).length
  let score := _safe_ratio (citation_hits : Rat) (records.length : Rat)
  .ok [_metric PERFORMANCE_GROUNDEDNESS_FAITHFULNESS score
    (cfg.parameters.version.getD "1.0") app_id now
    [("samples", toString records.length),
     ("citation_like_outputs", toString citation_hits)]]

end PerformanceGroundednessFaithfulnessPolicy

namespace PerformanceRelevancePolicy

/-- `PerformanceRelevancePolicy.evaluate`. -/
def evaluate : PolicyFn := fun cfg app_id now records =>
  let overlaps := records.map (fun r =>
    let in_tokens := _tokens r.input_text
    let out_tokens := _tokens r.output_text
    let union :=
      (in_tokens ++ out_tokens.filter (fun t => !in_tokens.contains t)).length
    let inter := (in_tokens.filter (fun t => out_tokens.contains t)).length
    _safe_ratio (inter : Rat) (union : Rat))
  let score := if overlaps.isEmpty then (0 : Rat) else meanQ overlaps
  .ok [_metric PERFORMANCE_RELEVANCE score (cfg.parameters.version.getD "1.0") app_id now
    [("samples", toString records.length)]]

end PerformanceRelevancePolicy

namespace PerformancePrecisionCoherencePolicy

/-- `PerformancePrecisionCoherencePolicy.evaluate`. -/
def evaluate : PolicyFn := fun cfg app_id now records =>
  let values := records.map (fun r =>
    let words :=
      if r.output_text.isEmpty then [] else findallTokens (pyLower r.output_text)
    let unique_ratio :=
      _safe_ratio ((words.eraseDups).length : Rat) ((max words.length 1 : Nat) : Rat)
    let sentence_like : Rat :=
      if endsWithAny (pyStrip r.output_text) ['.', '!', '?'] then 1 else 1/2
    _clamp01 (unique_ratio * (7/10) + sentence_like * (3/10)))
  let score := if values.isEmpty then (0 : Rat) else meanQ values
  .ok [_metric PERFORMANCE_PRECISION_COHERENCE score
    (cfg.parameters.version.getD "1.0") app_id now
    [("samples", toString records.length)]]

end PerformancePrecisionCoherencePolicy

/-- `len(re.findall(r"[.!?]", text))`. -/
def countSentenceMarks (s : String) : Nat :=
  (s.data.filter (fun c => c == '.' || c == '!' || c == '?')).length

namespace PerformanceReadabilityFluencyStylePolicy

/-- `PerformanceReadabilityFluencyStylePolicy.evaluate`. -/
def evaluate : PolicyFn := fun cfg app_id now records =>
  let readability_scores := records.map (fun r =>
    let words := findallTokens (pyLower r.output_text)
    if words.isEmpty then (0 : Rat)
    else
      let avg_word_len := meanQ (words.map (fun w => (w.length : Rat)))
      let sentence_count := max 1 (countSentenceMarks r.output_text)
      let words_per_sentence := (words.length : Rat) / (sentence_count : Rat)
      let score :=
        1 - _clamp01 ((avg_word_len - 9/2) / 8 + (words_per_sentence - 18) / 40)
      _clamp01 score)
  let value := if readability_scores.isEmpty then (0 : Rat) else meanQ readability_scores
  .ok [_metric PERFORMANCE_READABILITY_FLUENCY_STYLE value
    (cfg.parameters.version.getD "1.0") app_id now
    [("samples", toString records.length)]]

end PerformanceReadabilityFluencyStylePolicy

/-- Stable ascending insertion (Python `sorted`). -/
def insertSortedQ (x : Rat) : List Rat → List Rat
  | [] => [x]
  | y :: ys => if x < y then x :: y :: ys else y :: insertSortedQ x ys

/-- `sorted(xs)` for rationals. -/
def sortQ (xs : List Rat) : List Rat := xs.foldr insertSortedQ []

namespace SystemReliabilityLatencyPolicy

/-- `SystemReliabilityLatencyPolicy.evaluate`. -/
def evaluate : PolicyFn := fun cfg app_id now records =>
  let latencies := records.filterMap (fun r => r.latency_ms)
  let pa : Rat × Rat :=
    if latencies.isEmpty then (0, 0)
    else
      let values := sortQ latencies
      let idx := (max 0 (Int.ceil ((values.length : Rat) * (95/100)) - 1)).toNat
      (values.getD idx 0, meanQ values)
  .ok [_metric SYSTEM_RELIABILITY_LATENCY pa.1 (cfg.parameters.version.getD "1.0") app_id now
    [("samples", toString latencies.length),
     ("avg_latency_ms", toString (round2 pa.2)),
     ("p95_latency_ms", toString (round2 pa.1))]]

end SystemReliabilityLatencyPolicy

/-- Whether one record counts as degraded in
`SystemReliabilityAvailabilityResourceHealthPolicy`; the `float(...)`
conversion of a malformed metadata value raises, hence `Except`. -/
def degradedStep (r : TelemetryRecord) : Except String Bool := do
  let status := pyLower ((metaGet r.metadata "status").getD "")
  let util ← match metaGet r.metadata "resource_utilization" with
    | none => Except.ok (0 : Rat)
    | some s => if s.isEmpty then Except.ok (0 : Rat) else parseFloat s
  Except.ok (status == "error" || status == "failed" || status == "timeout" ||
    util ≥ 19/20)

/-- The degraded-record count of the availability policy's loop. -/
def countDegraded : List TelemetryRecord → Except String Nat
  | [] => .ok 0
  | r :: rs => do
    let b ← degradedStep r
    let n ← countDegraded rs
    .ok ((if b then 1 else 0) + n)

namespace SystemReliabilityAvailabilityResourceHealthPolicy

/-- `SystemReliabilityAvailabilityResourceHealthPolicy.evaluate`. -/
def evaluate : PolicyFn := fun cfg app_id now records => do
  let degraded ← countDegraded records
  let score := 1 - _safe_ratio (degraded : Rat) (records.length : Rat)
  .ok [_metric SYSTEM_RELIABILITY_AVAILABILITY_RESOURCE_HEALTH score
    (cfg.parameters.version.getD "1.0") app_id now
    [("samples", toString records.length), ("degraded_events", toString degraded)]]

end SystemReliabilityAvailabilityResourceHealthPolicy

/-- `build_policy_registry()`: the name-to-implementation registry. -/
def build_policy_registry : String → Option PolicyFn := fun name =>
  if name = SAFETY_TOXICITY then some SafetyToxicityPolicy.evaluate
  else if name = SAFETY_BIAS_FAIRNESS then some SafetyBiasFairnessPolicy.evaluate
  else if name = SAFETY_ROBUSTNESS then some SafetyRobustnessPolicy.evaluate
  else if name = SAFETY_COMPLIANCE then some SafetyCompliancePolicy.evaluate
  else if name = PERFORMANCE_GROUNDEDNESS_FAITHFULNESS then
    some PerformanceGroundednessFaithfulnessPolicy.evaluate
  else if name = PERFORMANCE_RELEVANCE then some PerformanceRelevancePolicy.evaluate
  else if name = PERFORMANCE_PRECISION_COHERENCE then
    some PerformancePrecisionCoherencePolicy.evaluate
  else if name = PERFORMANCE_READABILITY_FLUENCY_STYLE then
    some PerformanceReadabilityFluencyStylePolicy.evaluate
  else if name = SYSTEM_RELIABILITY_LATENCY then
    some SystemReliabilityLatencyPolicy.evaluate
  else if name = SYSTEM_RELIABILITY_AVAILABILITY_RESOURCE_HEALTH then
    some SystemReliabilityAvailabilityResourceHealthPolicy.evaluate
  else none

/-! ## Threshold evaluation (`evaluation/thresholds.py`) -/

/-- `_is_breached(value, threshold)`; an unrecognized direction raises
`ValueError`. -/
def _is_breached (value : Rat) (threshold : ThresholdConfig) : Except String Bool :=
  if threshold.direction = "min" then .ok (value < threshold.value)
  else if threshold.direction = "max" then .ok (value > threshold.value)
  else .error ("Unsupported threshold direction: " ++ threshold.direction)

/-- `threshold_map.get(metric.metric_name, [])`. -/
def thresholdsFor (tmap : List (String × List ThresholdConfig)) (name : String) :
    List ThresholdConfig :=
  ((tmap.find? (fun kv => kv.1 == name)).map (fun kv => kv.2)).getD []

/-- The `ThresholdBreach` appended by `evaluate_thresholds`. -/
def mkBreach (m : MetricValueVersioned) (th : ThresholdConfig) : ThresholdBreach :=
  { metric_name := m.metric_name
    level := th.level
    threshold_value := th.value
    actual_value := m.value
    direction := th.direction }

/-- Inner loop of `evaluate_thresholds` over one metric's thresholds. -/
def evalMetricThresholds (m : MetricValueVersioned) :
    List ThresholdConfig → Except String (List ThresholdBreach)
  | [] => .ok []
  | th :: rest => do
    let b ← _is_breached m.value th
    let bs ← evalMetricThresholds m rest
    .ok ((if b then [mkBreach m th] else []) ++ bs)

/-- `evaluate_thresholds(metrics, threshold_map)`. -/
def evaluate_thresholds (tmap : List (String × List ThresholdConfig)) :
    List MetricValueVersioned → Except String (List ThresholdBreach)
  | [] => .ok []
  | m :: ms => do
    let bs ← evalMetricThresholds m (thresholdsFor tmap m.metric_name)
    let rest ← evaluate_thresholds tmap ms
    .ok (bs ++ rest)

/-! ## Job tracking stores (`orchestration/job_tracking.py`, both variants)

Each `finalize_run` reads the snapshot of item statuses and computes the
run status; the status computation is the pure core embedded here. -/

namespace FileJobStatusStore

/-- Run-status computation of `FileJobStatusStore.finalize_run`
(`src/orchestration/job_tracking.py` lines 124-130): note the initial
`statuses and all(...)` truthiness check. -/
def finalize_run_status (statuses : List String) : String :=
  if !statuses.isEmpty && statuses.all (fun s => s == "completed") then "completed"
  else if statuses.any (fun s => s == "failed") then
    if statuses.any (fun s => s == "completed") then "partial_failed" else "failed"
  else "running"

end FileJobStatusStore

namespace SqliteJobStatusStore

/-- Run-status computation of `SqliteJobStatusStore.finalize_run`
(`FuncApp_Evals_BackEnd/orchestration/job_tracking.py` lines 185-192):
an empty snapshot is reported `completed`. -/
def finalize_run_status (statuses : List String) : String :=
  if statuses.isEmpty then "completed"
  else if statuses.all (fun s => s == "completed") then "completed"
  else if statuses.any (fun s => s == "failed") then
    if statuses.any (fun s => s == "completed") then "partial_failed" else "failed"
  else "running"

end SqliteJobStatusStore

/-! ## Batch evaluation runner (`orchestration/batch_runner.py`)

The runner is embedded with sequential semantics for the
semaphore-bounded `asyncio.gather` fan-out (results keep policy order,
the first exception propagates and no later result of the same
application is persisted, exactly as the awaited `gather` behaves).
The evaluation repository is the in-memory store of
`data/repositories.py` (`InMemoryEvaluationRepository`), whose state is
a plain result list threaded through the run; repository interactions
are recorded in an explicit call trace. -/

/-- One call against the `EvaluationRepository`. -/
inductive RepoCall where
  | results_exist (ids : List String)
  | result_exists (id : String)
  | save_results (ids : List String)
deriving DecidableEq, Repr

/-- Whether a call is the bulk existence check `results_exist`. -/
def isResultsExistCall : RepoCall → Bool
  | .results_exist _ => true
  | _ => false

/-- Whether a call is the single-id existence check `result_exists`. -/
def isResultExistsCall : RepoCall → Bool
  | .result_exists _ => true
  | _ => false

/-- `InMemoryEvaluationRepository.results_exist` (`data/repositories.py`
lines 212-214): the ids among `result_ids` already present in the store. -/
def results_exist (store : List EvaluationResult) (result_ids : List String) :
    List String :=
  result_ids.filter (fun rid => store.any (fun r => r.id == rid))

/-- `BatchEvaluationRunner._stable_batch_result_id`. -/
def _stable_batch_result_id
    (app_id policy_name trace_id value_object_version : String) : String :=
  let fingerprint :=
    app_id ++ "|" ++ policy_name ++ "|" ++ trace_id ++ "|" ++ value_object_version
  let digest := sha1_hex16 fingerprint
  app_id ++ ":" ++ policy_name ++ ":" ++ trace_id ++ ":" ++
    value_object_version ++ ":" ++ digest

/-- The sorted set of non-empty `metadata["trace_id"]` values
(`sorted({str(...get("trace_id")) for ... if ...get("trace_id")})`). -/
def traceIdSet (records : List TelemetryRecord) : List String :=
  sortedDistinct (records.filterMap (fun r =>
    match metaGet r.metadata "trace_id" with
    | some s => if s.isEmpty then none else some s
    | none => none))

/-- The sorted set of non-empty record ids
(`sorted({record.id for record in records if record.id})`). -/
def recordIdSet (records : List TelemetryRecord) : List String :=
  sortedDistinct (records.filterMap (fun r =>
    if r.id.isEmpty then none else some r.id))

/-- `BatchEvaluationRunner._derive_trace_identity`. -/
def _derive_trace_identity (records : List TelemetryRecord)
    (window_start window_end : String) : String :=
  match traceIdSet records with
  | [t] => t
  | [] =>
    let record_ids := recordIdSet records
    if record_ids.isEmpty then
      "window:" ++ sha1_hex16 (window_start ++ "|" ++ window_end)
    else
      "record_set:" ++ sha1_hex16 (String.intercalate "|" record_ids)
  | ts => "trace_set:" ++ sha1_hex16 (String.intercalate "|" ts)

/-- `{**base, **overrides}`: the dict merge used by the metric
normalisation, with overridden keys placed at the override position
(equal to the Python merge under key lookup; the data model declares key
order irrelevant). -/
def mergeMeta (base overrides : List (String × String)) : List (String × String) :=
  base.filter (fun kv => !(overrides.any (fun ov => ov.1 == kv.1))) ++ overrides

/-- One-metric step of
`BatchEvaluationRunner._normalize_metrics_for_traceability`
(`batch_runner.py` lines 228-246); `now` is `datetime.now(...)` threaded
explicitly. -/
def normalizeMetric (app_id policy_name policy_version window_start window_end
    dedupe_trace_id now : String) (metric : MetricValueVersioned) :
    MetricValueVersioned :=
  let version := if metric.version.isEmpty then policy_version else metric.version
  let timestamp := if metric.timestamp.isEmpty then now else metric.timestamp
  let metric_type :=
    if metric.metric_type.isEmpty then metric.metric_name else metric.metric_type
  { metric with
    version := version
    timestamp := timestamp
    metric_type := metric_type
    metadata := mergeMeta metric.metadata
      [("app_id", app_id), ("policy_name", policy_name),
       ("policy_version", policy_version),
       ("value_object_type", "metric_value_versioned"),
       ("value_object_version", version),
       ("dedupe_trace_id", dedupe_trace_id),
       ("window_start", window_start), ("window_end", window_end)] }

/-- `BatchEvaluationRunner._normalize_metrics_for_traceability`. -/
def _normalize_metrics_for_traceability (metrics : List MetricValueVersioned)
    (app_id policy_name policy_version window_start window_end
     dedupe_trace_id now : String) : List MetricValueVersioned :=
  metrics.map (normalizeMetric app_id policy_name policy_version window_start
    window_end dedupe_trace_id now)

/-- The policy registry instance state (`self.policy_registry`); the tests
substitute it (`tests/test_batch_runner.py`), so the runner is
parameterised over it, with `build_policy_registry` as the constructor
default. -/
def Registry : Type := String → Option PolicyFn

/-- `next((p for p in app_cfg.policies if p.name == policy_name), None)`. -/
def findPolicyConfig (cfg : ResolvedAppConfig) (policy_name : String) :
    Option PolicyConfig :=
  cfg.policies.find? (fun p => p.name == policy_name)

/-- `str(policy_cfg.parameters.get("version", "1.0"))`. -/
def policyVersionOf (pcfg : PolicyConfig) : String :=
  pcfg.parameters.version.getD "1.0"

/-- `BatchEvaluationRunner._evaluate_policy`; `.ok none` is the skip of an
already-evaluated work unit. -/
def _evaluate_policy (registry : Registry) (policy_name : String)
    (app_cfg : ResolvedAppConfig) (records : List TelemetryRecord)
    (window_start window_end dedupe_trace_id : String)
    (existing_result_ids : List String) (now : String) :
    Except String (Option EvaluationResult) :=
  match registry policy_name with
  | none => .error ("Policy not registered: " ++ policy_name)
  | some policyFn =>
    match findPolicyConfig app_cfg policy_name with
    | none => .error ("Policy config missing for: " ++ policy_name)
    | some policy_cfg =>
      let policy_version := policyVersionOf policy_cfg
      let result_id := _stable_batch_result_id app_cfg.app_id policy_name
        dedupe_trace_id policy_version
      if existing_result_ids.contains result_id then .ok none
      else do
        let metrics ← policyFn policy_cfg app_cfg.app_id now records
        let metrics := _normalize_metrics_for_traceability metrics
          app_cfg.app_id policy_name policy_version window_start window_end
          dedupe_trace_id now
        .ok (some
          { id := result_id
            app_id := app_cfg.app_id
            timestamp := now
            policy_name := policy_name
            metrics := metrics
            breaches := [] })

/-- The `asyncio.gather` fan-out over the application's policy names
(sequential semantics: option results in policy order, first exception
propagated). -/
def gatherPolicies (registry : Registry) (app_cfg : ResolvedAppConfig)
    (records : List TelemetryRecord) (window_start window_end dedupe : String)
    (existing : List String) (now : String) :
    List String → Except String (List (Option EvaluationResult))
  | [] => .ok []
  | n :: ns => do
    let r ← _evaluate_policy registry n app_cfg records window_start window_end
      dedupe existing now
    let rs ← gatherPolicies registry app_cfg records window_start window_end
      dedupe existing now ns
    .ok (r :: rs)

/-- The pre-calculated expected result ids of one chunk
(`batch_runner.py` lines 60-68): policies without a config are skipped. -/
def chunkExpectedIds (app_cfg : ResolvedAppConfig) (dedupe_trace_id : String) :
    List String :=
  app_cfg.policy_names.filterMap (fun policy_name =>
    (findPolicyConfig app_cfg policy_name).map (fun pcfg =>
      _stable_batch_result_id app_cfg.app_id policy_name dedupe_trace_id
        (policyVersionOf pcfg)))

/-- Result of the chunk loop: collected results (or the propagated
exception), repository calls made, and whether any non-empty chunk was
handled. -/
structure ChunkPhase where
  outcome : Except String (List EvaluationResult)
  calls : List RepoCall
  handled : Bool

/-- The `async for chunk in fetch_telemetry(...)` loop of
`run_for_application`: empty chunks are skipped, each non-empty chunk
derives its trace identity, issues one bulk existence check (only when
there are expected ids) and fans out the policies. -/
def processChunks (registry : Registry) (app_cfg : ResolvedAppConfig)
    (window_start window_end now : String) (store : List EvaluationResult) :
    List (List TelemetryRecord) → ChunkPhase
  | [] => ⟨.ok [], [], false⟩
  | chunk :: rest =>
    if chunk.isEmpty then
      processChunks registry app_cfg window_start window_end now store rest
    else
      let dedupe := _derive_trace_identity chunk window_start window_end
      let expected := chunkExpectedIds app_cfg dedupe
      let checkCalls :=
        if expected.isEmpty then ([] : List RepoCall)
        else [RepoCall.results_exist expected]
      let existing := if expected.isEmpty then [] else results_exist store expected
      match gatherPolicies registry app_cfg chunk window_start window_end dedupe
          existing now app_cfg.policy_names with
      | .error e => ⟨.error e, checkCalls, true⟩
      | .ok opts =>
        let phase :=
          processChunks registry app_cfg window_start window_end now store rest
        match phase.outcome with
        | .error e => ⟨.error e, checkCalls ++ phase.calls, true⟩
        | .ok more =>
          ⟨.ok (opts.filterMap id ++ more), checkCalls ++ phase.calls, true⟩

/-- A finished `run_for_application`: the returned result list (or the
propagated exception), the store after the final `save_results`, and the
repository call trace. -/
structure RunOutput where
  outcome : Except String (List EvaluationResult)
  store : List EvaluationResult
  calls : List RepoCall

/-- `BatchEvaluationRunner.run_for_application` over the in-memory result
store: stream chunks, synthesize one empty evaluation pass when no
non-empty chunk arrived, and persist all new results in one
`save_results` call at the end. -/
def run_for_application (registry : Registry) (app_cfg : ResolvedAppConfig)
    (chunks : List (List TelemetryRecord)) (start_ts end_ts now : String)
    (store : List EvaluationResult) : RunOutput :=
  let phase := processChunks registry app_cfg start_ts end_ts now store chunks
  match phase.outcome with
  | .error e => ⟨.error e, store, phase.calls⟩
  | .ok chunkResults =>
    if phase.handled then
      if chunkResults.isEmpty then ⟨.ok chunkResults, store, phase.calls⟩
      else
        ⟨.ok chunkResults, store ++ chunkResults,
          phase.calls ++ [RepoCall.save_results (chunkResults.map (fun r => r.id))]⟩
    else
      let dedupe := _derive_trace_identity [] start_ts end_ts
      match gatherPolicies registry app_cfg [] start_ts end_ts dedupe [] now
          app_cfg.policy_names with
      | .error e => ⟨.error e, store, phase.calls⟩
      | .ok opts =>
        let all_results := opts.filterMap id
        if all_results.isEmpty then ⟨.ok all_results, store, phase.calls⟩
        else
          ⟨.ok all_results, store ++ all_results,
            phase.calls ++ [RepoCall.save_results (all_results.map (fun r => r.id))]⟩

/-- The policy names of a successful run's result list (`none` when the
run raised). -/
def outcomePolicyNames (out : RunOutput) : Option (List String) :=
  match out.outcome with
  | .ok results => some (results.map (fun r => r.policy_name))
  | .error _ => none

/-! ## Driver (`main.py run_batch._process_app`) -/

/-- The job-tracking view of one shard item after the driver processed
it: `mark_item_completed` or `mark_item_failed` with the caught error. -/
structure JobItem where
  item_id : String
  status : String
  error : String
deriving DecidableEq, Repr

/-- The driver loop of `main.py run_batch` over one shard (sequential
semantics of the semaphore-bounded gather): each application's runner
outcome is caught per application and recorded as that application's
job-item status, and the shared result store threads through. -/
def process_apps (registry : Registry)
    (telemetryOf : String → List (List TelemetryRecord))
    (start_ts end_ts now : String) :
    List ResolvedAppConfig → List EvaluationResult →
      List JobItem × List EvaluationResult
  | [], store => ([], store)
  | app :: rest, store =>
    let run := run_for_application registry app (telemetryOf app.app_id)
      start_ts end_ts now store
    let item : JobItem :=
      match run.outcome with
      | .ok _ => ⟨app.app_id, "completed", ""⟩
      | .error e => ⟨app.app_id, "failed", e⟩
    let next := process_apps registry telemetryOf start_ts end_ts now rest run.store
    (item :: next.1, next.2)

/-! ## Concrete fixtures

Minimal registries, configurations and telemetry used to evaluate the
embedded runner on closed scenarios (the runner's policy registry is
substitutable instance state, exactly as the repository's own tests
substitute it). -/

/-- A policy that always returns one blank metric (the normalisation
fills the blanks). -/
def constPolicyFn : PolicyFn := fun _cfg _app _now _records =>
  .ok [{ metric_name := "m", value := 0, version := "", timestamp := "",
         metric_type := "", metadata := [] }]

/-- A policy whose `evaluate` raises. -/
def boomPolicyFn : PolicyFn := fun _cfg _app _now _records => .error "boom"

/-- A three-entry registry: two healthy policies and one raising policy. -/
def demoRegistry : Registry := fun n =>
  if n = "p1" then some constPolicyFn
  else if n = "p2" then some constPolicyFn
  else if n = "p_boom" then some boomPolicyFn
  else none

/-- A policy configuration with the given optional `version` parameter. -/
def demoPolicy (name : String) (ver : Option String) : PolicyConfig :=
  { name := name, metrics := [], parameters := { version := ver } }

/-- Two-policy application: `p1` with an explicit version parameter,
`p2` with none (so its version defaults to `"1.0"`). -/
def cfgTwoPolicies (v1 : String) : ResolvedAppConfig :=
  { app_id := "app-a"
    batch_time := "0 * * * *"
    policy_names := ["p1", "p2"]
    policies := [demoPolicy "p1" (some v1), demoPolicy "p2" none] }

/-- One telemetry record carrying a single `trace_id`. -/
def demoRecord : TelemetryRecord :=
  { id := "r1"
    app_id := "app-a"
    timestamp := "2026-03-01T00:00:00Z"
    model_id := "m"
    model_version := "1"
    input_text := ""
    output_text := ""
    metadata := [("trace_id", "T")] }

/-- Application configured with the real `safety_toxicity` policy only. -/
def cfgToxOnly : ResolvedAppConfig :=
  { app_id := "app1"
    batch_time := "0 * * * *"
    policy_names := [SAFETY_TOXICITY]
    policies := [{ name := SAFETY_TOXICITY }] }

/-- Application whose second policy raises. -/
def cfgBoom : ResolvedAppConfig :=
  { app_id := "a1"
    batch_time := "0 * * * *"
    policy_names := ["p1", "p_boom"]
    policies := [demoPolicy "p1" none, demoPolicy "p_boom" none] }

/-- Healthy one-policy application. -/
def cfgOk : ResolvedAppConfig :=
  { app_id := "a2"
    batch_time := "0 * * * *"
    policy_names := ["p1"]
    policies := [demoPolicy "p1" none] }

/-! # Theorems -/

/-! ## Run finalization (claims C3, C10) -/

/-- C3 (counterexample): the claim states that whenever some item is
still pending the run status remains `running`; on the snapshot
`["pending", "failed"]` both `finalize_run` implementations take the
`any failed` branch first and report the terminal status `failed`, not
`running`. -/
theorem c3_counterexample :
    FileJobStatusStore.finalize_run_status ["pending", "failed"] = "failed" ∧
    SqliteJobStatusStore.finalize_run_status ["pending", "failed"] = "failed" ∧
    ("failed" : String) ≠ "running" := by
  refine ⟨rfl, rfl, by decide⟩

/-- C3 (amended): on a non-empty snapshot both stores assign the run
status by first-match priority — all items `completed` → `completed`;
otherwise any `failed` together with any `completed` → `partial_failed`;
otherwise any `failed` → `failed`; otherwise (no `failed` item, not all
`completed`, e.g. some item `pending` or `running` and none failed) →
`running`.  (On an empty snapshot the stores disagree:
`FileJobStatusStore` reports `running`, `SqliteJobStatusStore` reports
`completed`.) -/
theorem c3_finalize_run_status_cases (statuses : List String)
    (hne : statuses ≠ []) :
    ((∀ s ∈ statuses, s = "completed") →
      FileJobStatusStore.finalize_run_status statuses = "completed" ∧
      SqliteJobStatusStore.finalize_run_status statuses = "completed") ∧
    (("failed" ∈ statuses ∧ "completed" ∈ statuses) →
      FileJobStatusStore.finalize_run_status statuses = "partial_failed" ∧
      SqliteJobStatusStore.finalize_run_status statuses = "partial_failed") ∧
    (("failed" ∈ statuses ∧ "completed" ∉ statuses) →
      FileJobStatusStore.finalize_run_status statuses = "failed" ∧
      SqliteJobStatusStore.finalize_run_status statuses = "failed") ∧
    (("failed" ∉ statuses ∧ ¬ (∀ s ∈ statuses, s = "completed")) →
      FileJobStatusStore.finalize_run_status statuses = "running" ∧
      SqliteJobStatusStore.finalize_run_status statuses = "running") := by
  obtain ⟨s0, rest, rfl⟩ : ∃ s0 rest, statuses = s0 :: rest := by
    cases statuses with
    | nil => exact absurd rfl hne
    | cons a l => exact ⟨a, l, rfl⟩
  refine ⟨?_, ?_, ?_, ?_⟩
  · intro hall
    have hb : (s0 :: rest).all (fun s => s == "completed") = true := by
      simp only [List.all_eq_true, beq_iff_eq]
      exact hall
    constructor
    · simp [FileJobStatusStore.finalize_run_status, hb]
    · simp [SqliteJobStatusStore.finalize_run_status, hb]
  · rintro ⟨hf, hc⟩
    have hbf : (s0 :: rest).any (fun s => s == "failed") = true := by
      simp only [List.any_eq_true, beq_iff_eq]
      exact ⟨"failed", hf, rfl⟩
    have hbc : (s0 :: rest).any (fun s => s == "completed") = true := by
      simp only [List.any_eq_true, beq_iff_eq]
      exact ⟨"completed", hc, rfl⟩
    have hnall : (s0 :: rest).all (fun s => s == "completed") = false := by
      simp only [List.all_eq_false, beq_iff_eq]
      exact ⟨"failed", hf, by decide⟩
    constructor
    · simp [FileJobStatusStore.finalize_run_status, hbf, hbc, hnall]
    · simp [SqliteJobStatusStore.finalize_run_status, hbf, hbc, hnall]
  · rintro ⟨hf, hnc⟩
    have hbf : (s0 :: rest).any (fun s => s == "failed") = true := by
      simp only [List.any_eq_true, beq_iff_eq]
      exact ⟨"failed", hf, rfl⟩
    have hbc : (s0 :: rest).any (fun s => s == "completed") = false := by
      simp only [List.any_eq_false, beq_iff_eq]
      intro s hs he
      exact hnc (he ▸ hs)
    have hnall : (s0 :: rest).all (fun s => s == "completed") = false := by
      simp only [List.all_eq_false, beq_iff_eq]
      exact ⟨"failed", hf, by decide⟩
    constructor
    · simp [FileJobStatusStore.finalize_run_status, hbf, hbc, hnall]
    · simp [SqliteJobStatusStore.finalize_run_status, hbf, hbc, hnall]
  · rintro ⟨hf, hnc⟩
    have hbf : (s0 :: rest).any (fun s => s == "failed") = false := by
      simp only [List.any_eq_false, beq_iff_eq]
      intro s hs he
      exact hf (he ▸ hs)
    have hnall : (s0 :: rest).all (fun s => s == "completed") = false := by
      rw [List.all_eq_false]
      by_contra hcon
      push_neg at hcon
      exact hnc (fun s hs => by
        have := hcon s hs
        simpa [beq_iff_eq] using this)
    constructor
    · simp [FileJobStatusStore.finalize_run_status, hbf, hnall]
    · simp [SqliteJobStatusStore.finalize_run_status, hbf, hnall]

/-- C3 (witness): instantiating the amended theorem on the snapshot
`["completed", "failed"]` yields `partial_failed` in both stores. -/
theorem c3_finalize_run_status_cases_witness :
    FileJobStatusStore.finalize_run_status ["completed", "failed"] = "partial_failed" ∧
    SqliteJobStatusStore.finalize_run_status ["completed", "failed"] = "partial_failed" :=
  (c3_finalize_run_status_cases ["completed", "failed"] (by decide)).2.1
    ⟨by decide, by decide⟩

/-- C10 (counterexample): on a run with zero items the two
implementations disagree — `FileJobStatusStore.finalize_run` leaves the
run `running` (the `statuses and all(...)` guard fails on an empty
list), while `SqliteJobStatusStore.finalize_run` reports `completed`. -/
theorem c10_counterexample :
    FileJobStatusStore.finalize_run_status [] = "running" ∧
    SqliteJobStatusStore.finalize_run_status [] = "completed" ∧
    FileJobStatusStore.finalize_run_status [] ≠
      SqliteJobStatusStore.finalize_run_status [] := by
  refine ⟨rfl, rfl, by decide⟩

/-- C10 (amended): on every non-empty snapshot of item statuses the two
`finalize_run` implementations assign the same run status; they disagree
exactly on the zero-item run, where `FileJobStatusStore` reports
`running` and `SqliteJobStatusStore` reports `completed`. -/
theorem c10_file_sqlite_agree (statuses : List String) (hne : statuses ≠ []) :
    FileJobStatusStore.finalize_run_status statuses =
      SqliteJobStatusStore.finalize_run_status statuses := by
  cases statuses with
  | nil => exact absurd rfl hne
  | cons s rest =>
    simp [FileJobStatusStore.finalize_run_status,
      SqliteJobStatusStore.finalize_run_status]

/-- C10 (witness): the amended theorem applied to the snapshot
`["completed", "failed"]`. -/
theorem c10_file_sqlite_agree_witness :
    FileJobStatusStore.finalize_run_status ["completed", "failed"] =
      SqliteJobStatusStore.finalize_run_status ["completed", "failed"] :=
  c10_file_sqlite_agree ["completed", "failed"] (by decide)

/-! ## Adapters for the `Except` monad -/

/-- `bind` on a successful `Except` value. -/
theorem exceptBind_ok {α β : Type} (a : α) (f : α → Except String β) :
    (Except.ok a >>= f) = f a := rfl

/-- `bind` on a raised `Except` value. -/
theorem exceptBind_error {α β : Type} (e : String) (f : α → Except String β) :
    ((Except.error e : Except String α) >>= f) = Except.error e := rfl

/-! ## Metric normalisation (claim C8) -/

/-- Unfolding `metaGet` on a cons cell. -/
theorem metaGet_cons (kv : String × String) (l : List (String × String))
    (k : String) :
    metaGet (kv :: l) k = if kv.1 == k then some kv.2 else metaGet l k := by
  by_cases h : kv.1 == k
  · simp [metaGet, List.find?_cons_of_pos, h]
  · simp only [Bool.not_eq_true] at h
    simp [metaGet, List.find?_cons_of_neg, h]

/-- Looking up an overridden key in a dict merge reads the override. -/
theorem metaGet_mergeMeta (base overrides : List (String × String)) (k : String)
    (h : overrides.any (fun ov => ov.1 == k) = true) :
    metaGet (mergeMeta base overrides) k = metaGet overrides k := by
  induction base with
  | nil => simp [mergeMeta, metaGet]
  | cons kv rest ih =>
    by_cases hk : (overrides.any (fun ov => ov.1 == kv.1)) = true
    · have : mergeMeta (kv :: rest) overrides = mergeMeta rest overrides := by
        simp [mergeMeta, List.filter_cons, hk]
      rw [this, ih]
    · have hne : (kv.1 == k) = false := by
        rcases hb : kv.1 == k with _ | _
        · rfl
        · exact absurd (by rwa [show kv.1 = k from by simpa using hb]) hk
      have : mergeMeta (kv :: rest) overrides = kv :: mergeMeta rest overrides := by
        simp [mergeMeta, List.filter_cons, hk]
      rw [this, metaGet_cons, hne, if_neg (by simp), ih]

/-- Looking up a key absent from the overrides reads the base mapping. -/
theorem metaGet_mergeMeta_base (base overrides : List (String × String))
    (k : String) (h : overrides.any (fun ov => ov.1 == k) = false) :
    metaGet (mergeMeta base overrides) k = metaGet base k := by
  induction base with
  | nil =>
    simp only [mergeMeta, List.filter_nil, List.nil_append]
    simp only [metaGet]
    rw [List.find?_eq_none.mpr]
    · rfl
    · intro ov hov
      have := (List.any_eq_false.mp h) ov hov
      simpa using this
  | cons kv rest ih =>
    by_cases hk : (overrides.any (fun ov => ov.1 == kv.1)) = true
    · have hne : (kv.1 == k) = false := by
        rcases hb : kv.1 == k with _ | _
        · rfl
        · rw [show kv.1 = k from by simpa using hb] at hk
          rw [hk] at h
          exact absurd h (by decide)
      have : mergeMeta (kv :: rest) overrides = mergeMeta rest overrides := by
        simp [mergeMeta, List.filter_cons, hk]
      rw [this, ih, metaGet_cons, hne, if_neg (by simp)]
    · have : mergeMeta (kv :: rest) overrides = kv :: mergeMeta rest overrides := by
        simp [mergeMeta, List.filter_cons, hk]
      rw [this, metaGet_cons, metaGet_cons, ih]

/-- Merging the same overrides twice equals merging them once. -/
theorem mergeMeta_idem (b o : List (String × String)) :
    mergeMeta (mergeMeta b o) o = mergeMeta b o := by
  unfold mergeMeta
  rw [List.filter_append]
  have h1 : (b.filter (fun kv => !(o.any (fun ov => ov.1 == kv.1)))).filter
      (fun kv => !(o.any (fun ov => ov.1 == kv.1))) =
      b.filter (fun kv => !(o.any (fun ov => ov.1 == kv.1))) := by
    rw [List.filter_filter]
    simp
  have h2 : o.filter (fun kv => !(o.any (fun ov => ov.1 == kv.1))) = [] := by
    rw [List.filter_eq_nil_iff]
    intro kv hkv
    have hany : o.any (fun ov => ov.1 == kv.1) = true :=
      List.any_eq_true.mpr ⟨kv, hkv, beq_self_eq_true kv.1⟩
    simp [hany]
  rw [h1, h2, List.append_nil]

/-- One normalisation pass is invariant under a second pass. -/
theorem normalizeMetric_idem (app pname pver ws we dtid now : String)
    (m : MetricValueVersioned) :
    normalizeMetric app pname pver ws we dtid now
        (normalizeMetric app pname pver ws we dtid now m) =
      normalizeMetric app pname pver ws we dtid now m := by
  have hV : (if (if m.version.isEmpty then pver else m.version).isEmpty
      then pver else (if m.version.isEmpty then pver else m.version)) =
      (if m.version.isEmpty then pver else m.version) := by
    by_cases h : m.version.isEmpty <;> simp [h]
  have hT : (if (if m.timestamp.isEmpty then now else m.timestamp).isEmpty
      then now else (if m.timestamp.isEmpty then now else m.timestamp)) =
      (if m.timestamp.isEmpty then now else m.timestamp) := by
    by_cases h : m.timestamp.isEmpty <;> simp [h]
  have hMT : (if (if m.metric_type.isEmpty then m.metric_name else m.metric_type).isEmpty
      then m.metric_name
      else (if m.metric_type.isEmpty then m.metric_name else m.metric_type)) =
      (if m.metric_type.isEmpty then m.metric_name else m.metric_type) := by
    by_cases h : m.metric_type.isEmpty <;> simp [h]
  simp only [normalizeMetric]
  rw [hV, hT, hMT, mergeMeta_idem]

/-- C8 (theorem): the runner's metric normalisation fills a missing
version from the policy version, a missing timestamp from the current
time and a missing type label from the metric name; it merges the seven
traceability fields into the metric metadata (with
`value_object_version` equal to the filled version) while leaving
non-traceability keys untouched, and applying the normalisation twice
with the same arguments equals applying it once.  (Stated over the data
model with the `metric_type` field the repository's tests and
constructors require; the dataclass in `data/models.py` omits that
field, the code bug recorded for this claim.) -/
theorem c8_normalize_traceability
    (app pname pver ws we dtid now : String) (m : MetricValueVersioned)
    (ms : List MetricValueVersioned) :
    (normalizeMetric app pname pver ws we dtid now m).version =
        (if m.version.isEmpty then pver else m.version) ∧
    (normalizeMetric app pname pver ws we dtid now m).timestamp =
        (if m.timestamp.isEmpty then now else m.timestamp) ∧
    (normalizeMetric app pname pver ws we dtid now m).metric_type =
        (if m.metric_type.isEmpty then m.metric_name else m.metric_type) ∧
    metaGet (normalizeMetric app pname pver ws we dtid now m).metadata "app_id"
        = some app ∧
    metaGet (normalizeMetric app pname pver ws we dtid now m).metadata "policy_name"
        = some pname ∧
    metaGet (normalizeMetric app pname pver ws we dtid now m).metadata "policy_version"
        = some pver ∧
    metaGet (normalizeMetric app pname pver ws we dtid now m).metadata "value_object_version"
        = some (normalizeMetric app pname pver ws we dtid now m).version ∧
    metaGet (normalizeMetric app pname pver ws we dtid now m).metadata "dedupe_trace_id"
        = some dtid ∧
    metaGet (normalizeMetric app pname pver ws we dtid now m).metadata "window_start"
        = some ws ∧
    metaGet (normalizeMetric app pname pver ws we dtid now m).metadata "window_end"
        = some we ∧
    _normalize_metrics_for_traceability
        (_normalize_metrics_for_traceability ms app pname pver ws we dtid now)
        app pname pver ws we dtid now =
      _normalize_metrics_for_traceability ms app pname pver ws we dtid now := by
  have hmd : (normalizeMetric app pname pver ws we dtid now m).metadata =
      mergeMeta m.metadata
        [("app_id", app), ("policy_name", pname), ("policy_version", pver),
         ("value_object_type", "metric_value_versioned"),
         ("value_object_version", if m.version.isEmpty then pver else m.version),
         ("dedupe_trace_id", dtid), ("window_start", ws), ("window_end", we)] := rfl
  refine ⟨rfl, rfl, rfl, ?_, ?_, ?_, ?_, ?_, ?_, ?_, ?_⟩
  · rw [hmd, metaGet_mergeMeta _ _ _ (by simp)]
    simp [metaGet]
  · rw [hmd, metaGet_mergeMeta _ _ _ (by simp)]
    simp [metaGet]
  · rw [hmd, metaGet_mergeMeta _ _ _ (by simp)]
    simp [metaGet]
  · rw [hmd, metaGet_mergeMeta _ _ _ (by simp)]
    simp only [metaGet, List.find?]
    rfl
  · rw [hmd, metaGet_mergeMeta _ _ _ (by simp)]
    simp [metaGet]
  · rw [hmd, metaGet_mergeMeta _ _ _ (by simp)]
    simp [metaGet]
  · rw [hmd, metaGet_mergeMeta _ _ _ (by simp)]
    simp [metaGet]
  · simp only [_normalize_metrics_for_traceability, List.map_map]
    simp [Function.comp_def, normalizeMetric_idem]

/-- C8 (witness): the normalisation evaluated on one concrete blank
metric — the version, timestamp and type label are filled and the
traceability metadata is present, and renormalising is a no-op. -/
theorem c8_normalize_traceability_witness :
    (normalizeMetric "a" "p" "2.0" "s" "e" "T" "t0"
        { metric_name := "m", value := 0, version := "", timestamp := "",
          metric_type := "", metadata := [] }).version = "2.0" ∧
    _normalize_metrics_for_traceability
        (_normalize_metrics_for_traceability
          [{ metric_name := "m", value := 0, version := "", timestamp := "",
             metric_type := "", metadata := [] }] "a" "p" "2.0" "s" "e" "T" "t0")
        "a" "p" "2.0" "s" "e" "T" "t0" =
      _normalize_metrics_for_traceability
        [{ metric_name := "m", value := 0, version := "", timestamp := "",
           metric_type := "", metadata := [] }] "a" "p" "2.0" "s" "e" "T" "t0" := by
  have h := c8_normalize_traceability "a" "p" "2.0" "s" "e" "T" "t0"
    { metric_name := "m", value := 0, version := "", timestamp := "",
      metric_type := "", metadata := [] }
    [{ metric_name := "m", value := 0, version := "", timestamp := "",
       metric_type := "", metadata := [] }]
  exact ⟨by rw [h.1]; rfl, h.2.2.2.2.2.2.2.2.2.2⟩

/-! ## Threshold evaluation (claim C9) -/

/-- `_is_breached` on a valid direction never raises and returns the
breach condition. -/
theorem _is_breached_valid (value : Rat) (th : ThresholdConfig)
    (h : th.direction = "min" ∨ th.direction = "max") :
    _is_breached value th =
      .ok (decide ((th.direction = "min" ∧ value < th.value) ∨
        (th.direction = "max" ∧ th.value < value))) := by
  rcases h with h | h <;> rw [_is_breached] <;> simp [h] <;> rfl

/-- `_is_breached` on an unrecognized direction raises. -/
theorem _is_breached_invalid (value : Rat) (th : ThresholdConfig)
    (h1 : th.direction ≠ "min") (h2 : th.direction ≠ "max") :
    _is_breached value th =
      .error ("Unsupported threshold direction: " ++ th.direction) := by
  rw [_is_breached, if_neg h1, if_neg h2]

/-- Per-metric threshold loop on valid directions: returns exactly the
breached thresholds. -/
theorem evalMetricThresholds_ok (m : MetricValueVersioned)
    (ths : List ThresholdConfig)
    (h : ∀ th ∈ ths, th.direction = "min" ∨ th.direction = "max") :
    ∃ bs, evalMetricThresholds m ths = .ok bs ∧
      ∀ b, b ∈ bs ↔ ∃ th ∈ ths,
        ((th.direction = "min" ∧ m.value < th.value) ∨
         (th.direction = "max" ∧ th.value < m.value)) ∧ b = mkBreach m th := by
  induction ths with
  | nil => exact ⟨[], rfl, by simp⟩
  | cons th rest ih =>
    obtain ⟨bs, hbs, hiff⟩ := ih (fun t ht => h t (List.mem_cons_of_mem th ht))
    have hv := h th (List.mem_cons_self th rest)
    refine ⟨(if (th.direction = "min" ∧ m.value < th.value) ∨
        (th.direction = "max" ∧ th.value < m.value) then [mkBreach m th] else []) ++ bs,
      ?_, ?_⟩
    · rw [evalMetricThresholds, _is_breached_valid m.value th hv, hbs]
      by_cases hc : (th.direction = "min" ∧ m.value < th.value) ∨
          (th.direction = "max" ∧ th.value < m.value) <;>
        simp [hc, exceptBind_ok]
    · intro b
      by_cases hc : (th.direction = "min" ∧ m.value < th.value) ∨
          (th.direction = "max" ∧ th.value < m.value)
      · simp only [hc, if_pos, List.mem_append, List.mem_singleton, hiff]
        constructor
        · rintro (rfl | ⟨t, ht, hcond, rfl⟩)
          · exact ⟨th, List.mem_cons_self th rest, hc, rfl⟩
          · exact ⟨t, List.mem_cons_of_mem th ht, hcond, rfl⟩
        · rintro ⟨t, ht, hcond, rfl⟩
          rcases List.mem_cons.mp ht with rfl | ht'
          · exact Or.inl rfl
          · exact Or.inr ⟨t, ht', hcond, rfl⟩
      · simp only [hc, if_neg, not_false_iff, List.nil_append, hiff]
        constructor
        · rintro ⟨t, ht, hcond, rfl⟩
          exact ⟨t, List.mem_cons_of_mem th ht, hcond, rfl⟩
        · rintro ⟨t, ht, hcond, rfl⟩
          rcases List.mem_cons.mp ht with rfl | ht'
          · exact absurd hcond hc
          · exact ⟨t, ht', hcond, rfl⟩

/-- Per-metric threshold loop with a bad direction present: raises. -/
theorem evalMetricThresholds_error (m : MetricValueVersioned)
    (ths : List ThresholdConfig)
    (h : ∃ th ∈ ths, th.direction ≠ "min" ∧ th.direction ≠ "max") :
    ∃ msg, evalMetricThresholds m ths = .error msg := by
  induction ths with
  | nil => simp at h
  | cons th rest ih =>
    by_cases hv : th.direction = "min" ∨ th.direction = "max"
    · have hrest : ∃ t ∈ rest, t.direction ≠ "min" ∧ t.direction ≠ "max" := by
        obtain ⟨t, ht, hbad⟩ := h
        rcases List.mem_cons.mp ht with rfl | ht'
        · rcases hv with hv | hv
          · exact absurd hv hbad.1
          · exact absurd hv hbad.2
        · exact ⟨t, ht', hbad⟩
      obtain ⟨msg, hmsg⟩ := ih hrest
      refine ⟨msg, ?_⟩
      rw [evalMetricThresholds, _is_breached_valid m.value th hv, hmsg]
      rfl
    · push_neg at hv
      refine ⟨"Unsupported threshold direction: " ++ th.direction, ?_⟩
      rw [evalMetricThresholds, _is_breached_invalid m.value th hv.1 hv.2]
      rfl

/-- C9 (theorem): `evaluate_thresholds` flags a breach for a metric
exactly when some threshold configured under that metric's name has
direction `min` with the value strictly below it, or direction `max`
with the value strictly above it; and whenever a threshold with any
other direction is reached (i.e. configured under the name of a metric
being evaluated) the function raises instead of silently skipping it. -/
theorem c9_evaluate_thresholds (metrics : List MetricValueVersioned)
    (tmap : List (String × List ThresholdConfig)) :
    ((∀ m ∈ metrics, ∀ th ∈ thresholdsFor tmap m.metric_name,
        th.direction = "min" ∨ th.direction = "max") →
      ∃ bs, evaluate_thresholds tmap metrics = .ok bs ∧
        ∀ b, b ∈ bs ↔ ∃ m ∈ metrics, ∃ th ∈ thresholdsFor tmap m.metric_name,
          ((th.direction = "min" ∧ m.value < th.value) ∨
           (th.direction = "max" ∧ th.value < m.value)) ∧ b = mkBreach m th) ∧
    ((∃ m ∈ metrics, ∃ th ∈ thresholdsFor tmap m.metric_name,
        th.direction ≠ "min" ∧ th.direction ≠ "max") →
      ∃ msg, evaluate_thresholds tmap metrics = .error msg) := by
  constructor
  · intro hvalid
    induction metrics with
    | nil => exact ⟨[], rfl, by simp⟩
    | cons m rest ih =>
      obtain ⟨bs1, hbs1, hiff1⟩ :=
        evalMetricThresholds_ok m (thresholdsFor tmap m.metric_name)
          (hvalid m (List.mem_cons_self m rest))
      obtain ⟨bs2, hbs2, hiff2⟩ :=
        ih (fun x hx => hvalid x (List.mem_cons_of_mem m hx))
      refine ⟨bs1 ++ bs2, ?_, ?_⟩
      · rw [evaluate_thresholds, hbs1, hbs2]
        rfl
      · intro b
        simp only [List.mem_append, hiff1, hiff2]
        constructor
        · rintro (⟨th, ht, hc, rfl⟩ | ⟨x, hx, th, ht, hc, rfl⟩)
          · exact ⟨m, List.mem_cons_self m rest, th, ht, hc, rfl⟩
          · exact ⟨x, List.mem_cons_of_mem m hx, th, ht, hc, rfl⟩
        · rintro ⟨x, hx, th, ht, hc, rfl⟩
          rcases List.mem_cons.mp hx with rfl | hx'
          · exact Or.inl ⟨th, ht, hc, rfl⟩
          · exact Or.inr ⟨x, hx', th, ht, hc, rfl⟩
  · intro hbad
    induction metrics with
    | nil => simp at hbad
    | cons m rest ih =>
      by_cases hm : ∃ th ∈ thresholdsFor tmap m.metric_name,
          th.direction ≠ "min" ∧ th.direction ≠ "max"
      · obtain ⟨msg, hmsg⟩ := evalMetricThresholds_error m _ hm
        refine ⟨msg, ?_⟩
        rw [evaluate_thresholds, hmsg]
        rfl
      · by_cases hv : ∀ th ∈ thresholdsFor tmap m.metric_name,
            th.direction = "min" ∨ th.direction = "max"
        · have hrest : ∃ x ∈ rest, ∃ th ∈ thresholdsFor tmap x.metric_name,
              th.direction ≠ "min" ∧ th.direction ≠ "max" := by
            obtain ⟨x, hx, th, ht, hbadth⟩ := hbad
            rcases List.mem_cons.mp hx with rfl | hx'
            · exact absurd ⟨th, ht, hbadth⟩ hm
            · exact ⟨x, hx', th, ht, hbadth⟩
          obtain ⟨msg, hmsg⟩ := ih hrest
          obtain ⟨bs1, hbs1, _⟩ :=
            evalMetricThresholds_ok m (thresholdsFor tmap m.metric_name) hv
          refine ⟨msg, ?_⟩
          rw [evaluate_thresholds, hbs1, hmsg]
          rfl
        · push_neg at hv
          obtain ⟨th, ht, hbadth⟩ := hv
          exact absurd ⟨th, ht, hbadth⟩ hm

/-- C9 (witness): the theorem applied to one concrete metric whose only
configured threshold carries the unrecognized direction `"typo"` — the
evaluation raises. -/
theorem c9_evaluate_thresholds_witness :
    ∃ msg, evaluate_thresholds
      [("m", [{ level := "warn", value := 3/4, direction := "typo" }])]
      [{ metric_name := "m", value := 1/2, version := "1", timestamp := "t",
         metric_type := "m", metadata := [] }] = .error msg :=
  (c9_evaluate_thresholds
    [{ metric_name := "m", value := 1/2, version := "1", timestamp := "t",
       metric_type := "m", metadata := [] }]
    [("m", [{ level := "warn", value := 3/4, direction := "typo" }])]).2
    (by decide)

/-! ## Bulk existence-check call counts (claim C5) -/

/-- The bulk check issued for one chunk is at most one `results_exist`
call and never a `result_exists` call. -/
theorem checkCalls_counts (expected : List String) :
    ((if expected.isEmpty then ([] : List RepoCall)
      else [RepoCall.results_exist expected]).countP isResultsExistCall ≤ 1) ∧
    ((if expected.isEmpty then ([] : List RepoCall)
      else [RepoCall.results_exist expected]).countP isResultExistsCall = 0) := by
  by_cases h : expected.isEmpty <;> simp [h, List.countP_cons, isResultsExistCall,
    isResultExistsCall, List.countP_nil]

/-- Over the chunk loop, at most one `results_exist` call is issued per
chunk and no `result_exists` call is ever issued. -/
theorem processChunks_calls (registry : Registry) (app_cfg : ResolvedAppConfig)
    (ws we now : String) (store : List EvaluationResult) :
    ∀ chunks : List (List TelemetryRecord),
      ((processChunks registry app_cfg ws we now store chunks).calls.countP
          isResultsExistCall ≤ chunks.length) ∧
      ((processChunks registry app_cfg ws we now store chunks).calls.countP
          isResultExistsCall = 0) := by
  intro chunks
  induction chunks with
  | nil => simp [processChunks]
  | cons chunk rest ih =>
    by_cases hchunk : chunk.isEmpty
    · rw [processChunks, if_pos hchunk]
      exact ⟨Nat.le_succ_of_le ih.1, ih.2⟩
    · rw [processChunks, if_neg hchunk]
      dsimp only
      have hcc := checkCalls_counts
        (chunkExpectedIds app_cfg (_derive_trace_identity chunk ws we))
      rcases hg : gatherPolicies registry app_cfg chunk ws we
          (_derive_trace_identity chunk ws we)
          (if (chunkExpectedIds app_cfg (_derive_trace_identity chunk ws we)).isEmpty
            then []
            else results_exist store
              (chunkExpectedIds app_cfg (_derive_trace_identity chunk ws we)))
          now app_cfg.policy_names with e | opts
      · dsimp only
        refine ⟨Nat.le_trans hcc.1 ?_, hcc.2⟩
        simp
      · dsimp only
        rcases hpo : (processChunks registry app_cfg ws we now store rest).outcome
          with e2 | more
      
        · dsimp only
          simp only [List.countP_append]
          constructor
          · have := Nat.add_le_add hcc.1 ih.1
            simpa [List.length_cons, Nat.add_comm] using this
          · rw [hcc.2, ih.2]
        · dsimp only
          simp only [List.countP_append]
          constructor
          · have := Nat.add_le_add hcc.1 ih.1
            simpa [List.length_cons, Nat.add_comm] using this
          · rw [hcc.2, ih.2]

/-- C5 (theorem): over any run of `run_for_application` with C telemetry
chunks, the evaluation repository's bulk existence check `results_exist`
is invoked at most C times (at most once per chunk, never once per
policy) and its single-id check `result_exists` is invoked exactly zero
times. -/
theorem c5_bulk_existence_calls (registry : Registry)
    (app_cfg : ResolvedAppConfig) (chunks : List (List TelemetryRecord))
    (start_ts end_ts now : String) (store : List EvaluationResult) :
    ((run_for_application registry app_cfg chunks start_ts end_ts now
        store).calls.countP isResultsExistCall ≤ chunks.length) ∧
    ((run_for_application registry app_cfg chunks start_ts end_ts now
        store).calls.countP isResultExistsCall = 0) := by
  have hp := processChunks_calls registry app_cfg start_ts end_ts now store chunks
  rw [run_for_application]
  dsimp only
  rcases hpo : (processChunks registry app_cfg start_ts end_ts now store
      chunks).outcome with e | chunkResults
  · exact hp
  · dsimp only
    by_cases hh : (processChunks registry app_cfg start_ts end_ts now store
        chunks).handled
    · rw [if_pos hh]
      by_cases hr : chunkResults.isEmpty
      · rw [if_pos hr]
        exact hp
      · rw [if_neg hr]
        simp only [List.countP_append, List.countP_cons, List.countP_nil]
        refine ⟨?_, ?_⟩
        · simpa [isResultsExistCall] using hp.1
        · simpa [isResultExistsCall] using hp.2
    · rw [if_neg hh]
      rcases hg : gatherPolicies registry app_cfg [] start_ts end_ts
          (_derive_trace_identity [] start_ts end_ts) [] now
          app_cfg.policy_names with e | opts
      · exact hp
      · dsimp only
        by_cases hr : (opts.filterMap id).isEmpty
        · rw [if_pos hr]
          exact hp
        · rw [if_neg hr]
          simp only [List.countP_append, List.countP_cons, List.countP_nil]
          refine ⟨?_, ?_⟩
          · simpa [isResultsExistCall] using hp.1
          · simpa [isResultExistsCall] using hp.2

/-! ## Deterministic result ids (claims C2, C4) -/

/-- Equal character data gives equal strings. -/
theorem stringDataInj {a b : String} (h : a.data = b.data) : a = b := by
  cases a
  cases b
  exact congrArg String.mk (by simpa using h)

/-- `beBytes` produces exactly `k` bytes. -/
theorem beBytes_length (k x : Nat) : (beBytes k x).length = k := by
  simp [beBytes]

/-- A SHA-1 digest is 20 bytes. -/
theorem sha1_length (msg : List Nat) : (sha1 msg).length = 20 := by
  simp [sha1, beBytes_length]

/-- Hex encoding doubles the byte count. -/
theorem bytesToHexChars_length (bs : List Nat) :
    (bytesToHexChars bs).length = 2 * bs.length := by
  induction bs with
  | nil => rfl
  | cons b rest ih =>
    simp only [bytesToHexChars] at ih ⊢
    simp only [List.map_cons, List.join_cons, List.length_append,
      List.length_cons, List.length_nil, ih, List.length_map]
    omega

/-- The truncated digest is 16 characters long. -/
theorem sha1_hex16_data_length (s : String) : (sha1_hex16 s).data.length = 16 := by
  have : (sha1_hex16 s).data = (bytesToHexChars (sha1 (utf8Bytes s))).take 16 := rfl
  rw [this, List.length_take, bytesToHexChars_length, sha1_length]
  omega

/-- The truncated digest is 16 characters long (string length). -/
theorem sha1_hex16_length (s : String) : (sha1_hex16 s).length = 16 :=
  sha1_hex16_data_length s

/-- C2 (theorem): the persisted result id is
`{app_id}:{policy_name}:{trace_identity}:{policy_version}:{digest}` with
`digest` the first 16 hex characters of the SHA-1 of the pipe-joined
identity inputs; with all other identity inputs held constant, two
distinct policy-version strings always yield distinct ids (the version
component and the fixed 16-character digest length make the id
injective in the version), so a version bump bypasses the existence
check; concretely, re-running the two-policy application after bumping
only `p1`'s configured version from `"1.0"` to `"2.0"` recomputes
exactly `p1` while the unchanged sibling `p2` stays deduplicated. -/
theorem c2_stable_result_id (app_id policy_name trace_id v v' : String)
    (hv : v ≠ v') :
    _stable_batch_result_id app_id policy_name trace_id v =
      app_id ++ ":" ++ policy_name ++ ":" ++ trace_id ++ ":" ++ v ++ ":" ++
        sha1_hex16 (app_id ++ "|" ++ policy_name ++ "|" ++ trace_id ++ "|" ++ v) ∧
    (sha1_hex16 (app_id ++ "|" ++ policy_name ++ "|" ++ trace_id ++ "|" ++ v)).data.length
        = 16 ∧
    _stable_batch_result_id app_id policy_name trace_id v ≠
      _stable_batch_result_id app_id policy_name trace_id v' ∧
    outcomePolicyNames (run_for_application demoRegistry (cfgTwoPolicies "2.0")
      [[demoRecord]] "ws" "we" "t2"
      (run_for_application demoRegistry (cfgTwoPolicies "1.0")
        [[demoRecord]] "ws" "we" "t1" []).store) = some ["p1"] := by
  refine ⟨rfl, sha1_hex16_data_length _, ?_, by decide⟩
  intro heq
  apply hv
  have hd := congrArg String.data heq
  simp only [_stable_batch_result_id, String.data_append, List.append_assoc] at hd
  have h1 := List.append_cancel_left hd
  have h2 := List.append_cancel_left h1
  have h3 := List.append_cancel_left h2
  have h4 := List.append_cancel_left h3
  have h5 := List.append_cancel_left h4
  have h6 := List.append_cancel_left h5
  have hlen : ((([':'] : List Char) ++
      (sha1_hex16 (app_id ++ "|" ++ policy_name ++ "|" ++ trace_id ++ "|" ++ v)).data).length =
      (([':'] : List Char) ++
      (sha1_hex16 (app_id ++ "|" ++ policy_name ++ "|" ++ trace_id ++ "|" ++ v')).data).length) := by
    simp [sha1_hex16_length]
  exact stringDataInj (List.append_inj' h6 hlen).1

/-- C2 (witness): the theorem instantiated at one concrete identity —
the ids for versions `"1.0"` and `"2.0"` differ. -/
theorem c2_stable_result_id_witness :
    _stable_batch_result_id "a" "p" "T" "1.0" ≠
      _stable_batch_result_id "a" "p" "T" "2.0" :=
  (c2_stable_result_id "a" "p" "T" "1.0" "2.0" (by decide)).2.2.1

/-- C4 (theorem): the derived trace identity follows the four-case
priority order of the claim, stated over the set of distinct non-empty
`trace_id` values present in the records (`traceIdSet`, the sorted
distinct list the source computes — the claim's "all records share
exactly one non-empty trace_id" is that set being a singleton) and the
sorted distinct non-empty record ids (`recordIdSet`): a single trace id
is used verbatim; multiple distinct trace ids hash to
`trace_set:<16-hex SHA-1>` of their sorted pipe-join; otherwise present
record ids hash to `record_set:...`; otherwise the window bounds hash to
`window:...`. -/
theorem c4_derive_trace_identity (records : List TelemetryRecord)
    (ws we : String) :
    (∀ t, traceIdSet records = [t] →
      _derive_trace_identity records ws we = t) ∧
    (∀ t1 t2 ts, traceIdSet records = t1 :: t2 :: ts →
      _derive_trace_identity records ws we =
        "trace_set:" ++ sha1_hex16 (String.intercalate "|" (t1 :: t2 :: ts))) ∧
    (traceIdSet records = [] → recordIdSet records ≠ [] →
      _derive_trace_identity records ws we =
        "record_set:" ++ sha1_hex16 (String.intercalate "|" (recordIdSet records))) ∧
    (traceIdSet records = [] → recordIdSet records = [] →
      _derive_trace_identity records ws we =
        "window:" ++ sha1_hex16 (ws ++ "|" ++ we)) := by
  refine ⟨?_, ?_, ?_, ?_⟩
  · intro t ht
    rw [_derive_trace_identity, ht]
  · intro t1 t2 ts ht
    rw [_derive_trace_identity, ht]
  · intro ht hr
    rw [_derive_trace_identity, ht]
    dsimp only
    rw [if_neg (by simpa [List.isEmpty_iff] using hr)]
  · intro ht hr
    rw [_derive_trace_identity, ht]
    dsimp only
    rw [if_pos (by simp [hr])]

/-- C4 (witness): the theorem applied to concrete inputs — no records
fall through to the window case, and a single-trace record list uses the
trace id verbatim. -/
theorem c4_derive_trace_identity_witness :
    _derive_trace_identity [] "a" "b" = "window:" ++ sha1_hex16 ("a" ++ "|" ++ "b") ∧
    _derive_trace_identity [demoRecord] "a" "b" = "T" :=
  ⟨(c4_derive_trace_identity [] "a" "b").2.2.2 rfl rfl,
   (c4_derive_trace_identity [demoRecord] "a" "b").1 "T" (by decide)⟩

/-! ## Zero-data completeness (claim C6) -/

/-- `round(1.0, 4) = 1.0`. -/
theorem round4_one : round4 1 = 1 := by
  norm_num [round4, roundHalfEven]

/-- `round(0.0, 4) = 0.0`. -/
theorem round4_zero : round4 0 = 0 := by
  norm_num [round4, roundHalfEven]

/-- `_safe_ratio(0, 0) = 0`: the denominator-guarded ratio on no data. -/
theorem _safe_ratio_zero : _safe_ratio 0 0 = 0 := by
  norm_num [_safe_ratio]

/-- `SafetyToxicityPolicy` on the empty record list: one metric, default value. -/
theorem toxicity_empty_eval (cfg : PolicyConfig) (app now : String) :
    ∃ ms, SafetyToxicityPolicy.evaluate cfg app now [] = .ok ms ∧ ms ≠ [] ∧
      ∀ m ∈ ms, m.value = 0 ∨ m.value = 1 := by
  refine ⟨_, rfl, by simp, ?_⟩
  intro m hm
  rw [List.mem_singleton] at hm
  subst hm
  simp [SafetyToxicityPolicy.evaluate, _metric, _safe_ratio, round4_one, round4_zero]

/-- `SafetyBiasFairnessPolicy` on the empty record list: one metric, default value. -/
theorem bias_empty_eval (cfg : PolicyConfig) (app now : String) :
    ∃ ms, SafetyBiasFairnessPolicy.evaluate cfg app now [] = .ok ms ∧ ms ≠ [] ∧
      ∀ m ∈ ms, m.value = 0 ∨ m.value = 1 := by
  refine ⟨_, rfl, by simp, ?_⟩
  intro m hm
  rw [List.mem_singleton] at hm
  subst hm
  simp [SafetyBiasFairnessPolicy.evaluate, _metric, _safe_ratio, round4_one, round4_zero]

/-- `SafetyRobustnessPolicy` on the empty record list: one metric, default value. -/
theorem robustness_empty_eval (cfg : PolicyConfig) (app now : String) :
    ∃ ms, SafetyRobustnessPolicy.evaluate cfg app now [] = .ok ms ∧ ms ≠ [] ∧
      ∀ m ∈ ms, m.value = 0 ∨ m.value = 1 := by
  refine ⟨_, rfl, by simp, ?_⟩
  intro m hm
  rw [List.mem_singleton] at hm
  subst hm
  simp [SafetyRobustnessPolicy.evaluate, _metric, _safe_ratio, round4_one, round4_zero]

/-- `SafetyCompliancePolicy` on the empty record list: one metric, default value. -/
theorem compliance_empty_eval (cfg : PolicyConfig) (app now : String) :
    ∃ ms, SafetyCompliancePolicy.evaluate cfg app now [] = .ok ms ∧ ms ≠ [] ∧
      ∀ m ∈ ms, m.value = 0 ∨ m.value = 1 := by
  refine ⟨_, rfl, by simp, ?_⟩
  intro m hm
  rw [List.mem_singleton] at hm
  subst hm
  simp [SafetyCompliancePolicy.evaluate, _metric, _safe_ratio, round4_one, round4_zero]

/-- `PerformanceGroundednessFaithfulnessPolicy` on the empty record list: one metric, default value. -/
theorem groundedness_empty_eval (cfg : PolicyConfig) (app now : String) :
    ∃ ms, PerformanceGroundednessFaithfulnessPolicy.evaluate cfg app now [] = .ok ms ∧ ms ≠ [] ∧
      ∀ m ∈ ms, m.value = 0 ∨ m.value = 1 := by
  refine ⟨_, rfl, by simp, ?_⟩
  intro m hm
  rw [List.mem_singleton] at hm
  subst hm
  simp [PerformanceGroundednessFaithfulnessPolicy.evaluate, _metric, _safe_ratio, round4_one, round4_zero]

/-- `PerformanceRelevancePolicy` on the empty record list: one metric, default value. -/
theorem relevance_empty_eval (cfg : PolicyConfig) (app now : String) :
    ∃ ms, PerformanceRelevancePolicy.evaluate cfg app now [] = .ok ms ∧ ms ≠ [] ∧
      ∀ m ∈ ms, m.value = 0 ∨ m.value = 1 := by
  refine ⟨_, rfl, by simp, ?_⟩
  intro m hm
  rw [List.mem_singleton] at hm
  subst hm
  simp [PerformanceRelevancePolicy.evaluate, _metric, _safe_ratio, round4_one, round4_zero]

/-- `PerformancePrecisionCoherencePolicy` on the empty record list: one metric, default value. -/
theorem precision_empty_eval (cfg : PolicyConfig) (app now : String) :
    ∃ ms, PerformancePrecisionCoherencePolicy.evaluate cfg app now [] = .ok ms ∧ ms ≠ [] ∧
      ∀ m ∈ ms, m.value = 0 ∨ m.value = 1 := by
  refine ⟨_, rfl, by simp, ?_⟩
  intro m hm
  rw [List.mem_singleton] at hm
  subst hm
  simp [PerformancePrecisionCoherencePolicy.evaluate, _metric, _safe_ratio, round4_one, round4_zero]

/-- `PerformanceReadabilityFluencyStylePolicy` on the empty record list: one metric, default value. -/
theorem readability_empty_eval (cfg : PolicyConfig) (app now : String) :
    ∃ ms, PerformanceReadabilityFluencyStylePolicy.evaluate cfg app now [] = .ok ms ∧ ms ≠ [] ∧
      ∀ m ∈ ms, m.value = 0 ∨ m.value = 1 := by
  refine ⟨_, rfl, by simp, ?_⟩
  intro m hm
  rw [List.mem_singleton] at hm
  subst hm
  simp [PerformanceReadabilityFluencyStylePolicy.evaluate, _metric, _safe_ratio, round4_one, round4_zero]

/-- `SystemReliabilityLatencyPolicy` on the empty record list: one metric, default value. -/
theorem latency_empty_eval (cfg : PolicyConfig) (app now : String) :
    ∃ ms, SystemReliabilityLatencyPolicy.evaluate cfg app now [] = .ok ms ∧ ms ≠ [] ∧
      ∀ m ∈ ms, m.value = 0 ∨ m.value = 1 := by
  refine ⟨_, rfl, by simp, ?_⟩
  intro m hm
  rw [List.mem_singleton] at hm
  subst hm
  simp [SystemReliabilityLatencyPolicy.evaluate, _metric, _safe_ratio, round4_one, round4_zero]

/-- `SystemReliabilityAvailabilityResourceHealthPolicy` on the empty record list: one metric, default value. -/
theorem availability_empty_eval (cfg : PolicyConfig) (app now : String) :
    ∃ ms, SystemReliabilityAvailabilityResourceHealthPolicy.evaluate cfg app now [] = .ok ms ∧ ms ≠ [] ∧
      ∀ m ∈ ms, m.value = 0 ∨ m.value = 1 := by
  refine ⟨_, rfl, by simp, ?_⟩
  intro m hm
  rw [List.mem_singleton] at hm
  subst hm
  simp [SystemReliabilityAvailabilityResourceHealthPolicy.evaluate, _metric, _safe_ratio, round4_one, round4_zero]

set_option maxHeartbeats 2000000 in
/-- Every policy of `build_policy_registry`, evaluated on the empty
record list, returns without raising exactly one metric whose value is
the policy's defined default (`1.0` or `0.0`). -/
theorem registry_policy_empty_eval (name : String) (f : PolicyFn)
    (hf : build_policy_registry name = some f) (cfg : PolicyConfig)
    (app now : String) :
    ∃ ms, f cfg app now [] = .ok ms ∧ ms ≠ [] ∧
      ∀ m ∈ ms, m.value = 0 ∨ m.value = 1 := by
  rw [build_policy_registry] at hf
  split_ifs at hf
  · injection hf with hf
    subst hf
    exact toxicity_empty_eval cfg app now
  · injection hf with hf
    subst hf
    exact bias_empty_eval cfg app now
  · injection hf with hf
    subst hf
    exact robustness_empty_eval cfg app now
  · injection hf with hf
    subst hf
    exact compliance_empty_eval cfg app now
  · injection hf with hf
    subst hf
    exact groundedness_empty_eval cfg app now
  · injection hf with hf
    subst hf
    exact relevance_empty_eval cfg app now
  · injection hf with hf
    subst hf
    exact precision_empty_eval cfg app now
  · injection hf with hf
    subst hf
    exact readability_empty_eval cfg app now
  · injection hf with hf
    subst hf
    exact latency_empty_eval cfg app now
  · injection hf with hf
    subst hf
    exact availability_empty_eval cfg app now

/-- The chunk loop over only-empty chunks does nothing and reports no
chunk handled. -/
theorem processChunks_all_empty (registry : Registry)
    (app_cfg : ResolvedAppConfig) (ws we now : String)
    (store : List EvaluationResult) (chunks : List (List TelemetryRecord))
    (h : ∀ c ∈ chunks, c = []) :
    processChunks registry app_cfg ws we now store chunks = ⟨.ok [], [], false⟩ := by
  induction chunks with
  | nil => rfl
  | cons c rest ih =>
    have hc : c = [] := h c (List.mem_cons_self c rest)
    rw [processChunks, if_pos (by simp [hc])]
    exact ih (fun x hx => h x (List.mem_cons_of_mem c hx))

/-- `_evaluate_policy` of a registered, configured policy on the empty
record list with no existing ids produces a result for that policy. -/
theorem evaluate_policy_empty_records (n : String) (cfg : ResolvedAppConfig)
    (ws we dedupe now : String) (f : PolicyFn) (pcfg : PolicyConfig)
    (hreg : build_policy_registry n = some f)
    (hcfg : findPolicyConfig cfg n = some pcfg) :
    ∃ res, _evaluate_policy build_policy_registry n cfg [] ws we dedupe [] now =
      .ok (some res) ∧ res.policy_name = n := by
  obtain ⟨ms, hms, _, _⟩ := registry_policy_empty_eval n f hreg pcfg cfg.app_id now
  unfold _evaluate_policy
  rw [hreg, hcfg]
  dsimp only
  rw [if_neg (by simp), hms, exceptBind_ok]
  exact ⟨_, rfl, rfl⟩

/-- The policy fan-out over the empty record list with no existing ids
yields exactly one result per configured policy, in order. -/
theorem gatherPolicies_empty_records (cfg : ResolvedAppConfig)
    (ws we dedupe now : String) :
    ∀ names : List String,
      (∀ n ∈ names,
        (build_policy_registry n).isSome ∧ (findPolicyConfig cfg n).isSome) →
      ∃ opts, gatherPolicies build_policy_registry cfg [] ws we dedupe [] now
          names = .ok opts ∧
        (opts.filterMap id).map (fun r => r.policy_name) = names := by
  intro names
  induction names with
  | nil => exact fun _ => ⟨[], rfl, rfl⟩
  | cons n ns ih =>
    intro h
    obtain ⟨f, hreg⟩ :=
      Option.isSome_iff_exists.mp (h n (List.mem_cons_self n ns)).1
    obtain ⟨pcfg, hcfg⟩ :=
      Option.isSome_iff_exists.mp (h n (List.mem_cons_self n ns)).2
    obtain ⟨res, hres, hname⟩ :=
      evaluate_policy_empty_records n cfg ws we dedupe now f pcfg hreg hcfg
    obtain ⟨opts, hopts, hmap⟩ := ih (fun x hx => h x (List.mem_cons_of_mem n hx))
    refine ⟨some res :: opts, ?_, ?_⟩
    · rw [gatherPolicies, hres, exceptBind_ok, hopts, exceptBind_ok]
    · simp [List.filterMap_cons, hmap, hname]

/-- C6 (theorem): when the telemetry source yields zero (non-empty)
chunks for the window, `run_for_application` with the real policy
registry returns exactly one `EvaluationResult` per configured policy —
in configuration order, never an absent result — provided every
configured policy name is registered and has a policy config; and every
registered policy's `evaluate` applied to an empty record list returns,
without raising, a non-empty metric list whose every value is the
policy's defined default (`0.0` or a denominator-guarded `1.0`). -/
theorem c6_zero_data (cfg : ResolvedAppConfig)
    (chunks : List (List TelemetryRecord)) (ws we now : String)
    (store : List EvaluationResult) :
    ((∀ c ∈ chunks, c = []) →
      (∀ n ∈ cfg.policy_names,
        (build_policy_registry n).isSome ∧ (findPolicyConfig cfg n).isSome) →
      outcomePolicyNames
          (run_for_application build_policy_registry cfg chunks ws we now store) =
        some cfg.policy_names) ∧
    (∀ name f, build_policy_registry name = some f →
      ∀ (pcfg : PolicyConfig) (app now2 : String),
        ∃ ms, f pcfg app now2 [] = .ok ms ∧ ms ≠ [] ∧
          ∀ m ∈ ms, m.value = 0 ∨ m.value = 1) := by
  constructor
  · intro hchunks hready
    obtain ⟨opts, hopts, hmap⟩ := gatherPolicies_empty_records cfg ws we
      (_derive_trace_identity [] ws we) now cfg.policy_names hready
    rw [run_for_application,
      processChunks_all_empty build_policy_registry cfg ws we now store chunks hchunks]
    dsimp only
    rw [hopts]
    dsimp only
    by_cases hr : (opts.filterMap id).isEmpty
    · rw [if_pos hr]
      simp [outcomePolicyNames, hmap]
    · rw [if_neg hr]
      simp [outcomePolicyNames, hmap]
  · exact fun name f hf pcfg app now2 =>
      registry_policy_empty_eval name f hf pcfg app now2

/-- C6 (witness): the theorem applied to the one-policy application
`cfgToxOnly` with an empty chunk stream — exactly one result, for
`safety_toxicity`. -/
theorem c6_zero_data_witness :
    outcomePolicyNames
        (run_for_application build_policy_registry cfgToxOnly [] "ws" "we" "t0" []) =
      some [SAFETY_TOXICITY] :=
  (c6_zero_data cfgToxOnly [] "ws" "we" "t0" []).1 (by simp) (by decide)

/-! ## Idempotent re-runs (claim C1) -/

/-- Inversion of a successful `_evaluate_policy`: the policy was
registered and configured, and the call either skipped (its id was in
the existing set) or produced a result carrying exactly the stable id. -/
theorem evaluate_policy_ok_inversion (registry : Registry) (n : String)
    (cfg : ResolvedAppConfig) (records : List TelemetryRecord)
    (ws we dedupe : String) (existing : List String) (now : String)
    (r : Option EvaluationResult)
    (h : _evaluate_policy registry n cfg records ws we dedupe existing now = .ok r) :
    ∃ f pcfg, registry n = some f ∧ findPolicyConfig cfg n = some pcfg ∧
      ((r = none ∧ existing.contains
          (_stable_batch_result_id cfg.app_id n dedupe (policyVersionOf pcfg)) = true) ∨
       (∃ res, r = some res ∧
         res.id = _stable_batch_result_id cfg.app_id n dedupe (policyVersionOf pcfg))) := by
  unfold _evaluate_policy at h
  rcases hreg : registry n with _ | f <;> rw [hreg] at h
  · cases h
  rcases hcfg : findPolicyConfig cfg n with _ | pcfg <;> rw [hcfg] at h
  · cases h
  dsimp only at h
  by_cases hin : existing.contains
      (_stable_batch_result_id cfg.app_id n dedupe (policyVersionOf pcfg)) = true
  · rw [if_pos hin] at h
    injection h with h
    exact ⟨f, pcfg, rfl, rfl, Or.inl ⟨h.symm, hin⟩⟩
  · rw [if_neg hin] at h
    rcases hev : f pcfg cfg.app_id now records with e | ms <;> rw [hev] at h
    · rw [exceptBind_error] at h
      cases h
    · rw [exceptBind_ok] at h
      injection h with h
      exact ⟨f, pcfg, rfl, rfl, Or.inr ⟨_, h.symm, rfl⟩⟩

/-- A registered, configured policy whose stable id is already in the
existing set is skipped with no side effects. -/
theorem evaluate_policy_skip (registry : Registry) (n : String)
    (cfg : ResolvedAppConfig) (records : List TelemetryRecord)
    (ws we dedupe : String) (existing : List String) (now : String)
    (f : PolicyFn) (pcfg : PolicyConfig)
    (hreg : registry n = some f) (hcfg : findPolicyConfig cfg n = some pcfg)
    (hin : existing.contains
      (_stable_batch_result_id cfg.app_id n dedupe (policyVersionOf pcfg)) = true) :
    _evaluate_policy registry n cfg records ws we dedupe existing now = .ok none := by
  unfold _evaluate_policy
  rw [hreg, hcfg]
  dsimp only
  rw [if_pos hin]

/-- Inversion of a successful policy fan-out: every configured policy
name was registered and configured, and its stable id is either in the
existing set or carried by one of the produced results. -/
theorem gatherPolicies_ok_covered (registry : Registry)
    (cfg : ResolvedAppConfig) (records : List TelemetryRecord)
    (ws we dedupe : String) (existing : List String) (now : String) :
    ∀ (names : List String) (opts : List (Option EvaluationResult)),
      gatherPolicies registry cfg records ws we dedupe existing now names = .ok opts →
      ∀ n ∈ names, ∃ f pcfg, registry n = some f ∧
        findPolicyConfig cfg n = some pcfg ∧
        (_stable_batch_result_id cfg.app_id n dedupe (policyVersionOf pcfg) ∈ existing ∨
         ∃ r ∈ opts.filterMap id,
           r.id = _stable_batch_result_id cfg.app_id n dedupe (policyVersionOf pcfg)) := by
  intro names
  induction names with
  | nil => intro opts _ n hn; cases hn
  | cons n0 ns ih =>
    intro opts h n hn
    rw [gatherPolicies] at h
    rcases he : _evaluate_policy registry n0 cfg records ws we dedupe existing now
      with e | r0 <;> rw [he] at h
    · rw [exceptBind_error] at h
      cases h
    rw [exceptBind_ok] at h
    rcases hrest : gatherPolicies registry cfg records ws we dedupe existing now ns
      with e | rs <;> rw [hrest] at h
    · rw [exceptBind_error] at h
      cases h
    rw [exceptBind_ok] at h
    injection h with h
    subst h
    rcases List.mem_cons.mp hn with rfl | hn'
    · obtain ⟨f, pcfg, hreg, hcfg, hdisj⟩ :=
        evaluate_policy_ok_inversion registry n cfg records ws we dedupe existing
          now r0 he
      refine ⟨f, pcfg, hreg, hcfg, ?_⟩
      rcases hdisj with ⟨hr0, hin⟩ | ⟨res, hr0, hid⟩
      · exact Or.inl (by simpa using hin)
      · refine Or.inr ⟨res, ?_, hid⟩
        subst hr0
        simp [List.filterMap_cons]
    · obtain ⟨f, pcfg, hreg, hcfg, hdisj⟩ := ih rs hrest n hn'
      refine ⟨f, pcfg, hreg, hcfg, ?_⟩
      rcases hdisj with hin | ⟨r, hr, hid⟩
      · exact Or.inl hin
      · refine Or.inr ⟨r, ?_, hid⟩
        cases r0 <;> simp [List.filterMap_cons, hr]

/-- When every configured policy's stable id is in the existing set the
fan-out skips everything. -/
theorem gatherPolicies_all_skip (registry : Registry)
    (cfg : ResolvedAppConfig) (records : List TelemetryRecord)
    (ws we dedupe : String) (existing : List String) (now : String) :
    ∀ names : List String,
      (∀ n ∈ names, ∃ f pcfg, registry n = some f ∧
        findPolicyConfig cfg n = some pcfg ∧
        existing.contains
          (_stable_batch_result_id cfg.app_id n dedupe (policyVersionOf pcfg)) = true) →
      gatherPolicies registry cfg records ws we dedupe existing now names =
        .ok (names.map (fun _ => none)) := by
  intro names
  induction names with
  | nil => intro _; rfl
  | cons n0 ns ih =>
    intro h
    obtain ⟨f, pcfg, hreg, hcfg, hin⟩ := h n0 (List.mem_cons_self n0 ns)
    rw [gatherPolicies,
      evaluate_policy_skip registry n0 cfg records ws we dedupe existing now f
        pcfg hreg hcfg hin,
      exceptBind_ok, ih (fun x hx => h x (List.mem_cons_of_mem n0 hx)),
      exceptBind_ok, List.map_cons]

/-- The handled flag of a successful chunk loop records whether any
non-empty chunk arrived. -/
theorem processChunks_handled (registry : Registry) (cfg : ResolvedAppConfig)
    (ws we now : String) (store : List EvaluationResult) :
    ∀ (chunks : List (List TelemetryRecord)) (res : List EvaluationResult)
      (calls : List RepoCall) (handled : Bool),
      processChunks registry cfg ws we now store chunks = ⟨.ok res, calls, handled⟩ →
      handled = chunks.any (fun c => !c.isEmpty) := by
  intro chunks
  induction chunks with
  | nil =>
    intro res calls handled h
    injection h with h1 h2 h3
    simp [h3.symm]
  | cons c rest ih =>
    intro res calls handled h
    by_cases hc : c.isEmpty
    · rw [processChunks, if_pos hc] at h
      rw [List.any_cons, hc]
      simpa using ih res calls handled h
    · rw [processChunks, if_neg hc] at h
      dsimp only at h
      rcases hg : gatherPolicies registry cfg c ws we
          (_derive_trace_identity c ws we)
          (if (chunkExpectedIds cfg (_derive_trace_identity c ws we)).isEmpty
            then []
            else results_exist store
              (chunkExpectedIds cfg (_derive_trace_identity c ws we)))
          now cfg.policy_names with e | opts <;> rw [hg] at h
      · injection h with h1 h2 h3
        simp [h3.symm, hc]
      · dsimp only at h
        rcases hpo : (processChunks registry cfg ws we now store rest).outcome
          with e2 | more <;> rw [hpo] at h
        · injection h with h1 h2 h3
          simp [h3.symm, hc]
        · injection h with h1 h2 h3
          simp [h3.symm, hc]

/-- Inversion of a successful chunk loop: for every non-empty chunk and
every configured policy, the policy was registered and configured and
its stable id is either already in the store consulted by the bulk
existence checks or carried by one of the collected results. -/
theorem processChunks_ok_covered (registry : Registry)
    (cfg : ResolvedAppConfig) (ws we now : String)
    (store : List EvaluationResult) :
    ∀ (chunks : List (List TelemetryRecord)) (res : List EvaluationResult)
      (calls : List RepoCall) (handled : Bool),
      processChunks registry cfg ws we now store chunks = ⟨.ok res, calls, handled⟩ →
      ∀ chunk ∈ chunks, chunk ≠ [] → ∀ n ∈ cfg.policy_names,
        ∃ f pcfg, registry n = some f ∧ findPolicyConfig cfg n = some pcfg ∧
          (store.any (fun r => r.id == _stable_batch_result_id cfg.app_id n
              (_derive_trace_identity chunk ws we) (policyVersionOf pcfg)) = true ∨
           ∃ r ∈ res, r.id = _stable_batch_result_id cfg.app_id n
              (_derive_trace_identity chunk ws we) (policyVersionOf pcfg)) := by
  intro chunks
  induction chunks with
  | nil => intro res calls handled _ chunk hchunk; cases hchunk
  | cons c rest ih =>
    intro res calls handled h chunk hchunk hne n hn
    by_cases hc : c.isEmpty
    · rw [processChunks, if_pos hc] at h
      rcases List.mem_cons.mp hchunk with rfl | hchunk'
      · exact absurd (List.isEmpty_iff.mp hc) hne
      · exact ih res calls handled h chunk hchunk' hne n hn
    · rw [processChunks, if_neg hc] at h
      dsimp only at h
      rcases hg : gatherPolicies registry cfg c ws we
          (_derive_trace_identity c ws we)
          (if (chunkExpectedIds cfg (_derive_trace_identity c ws we)).isEmpty
            then []
            else results_exist store
              (chunkExpectedIds cfg (_derive_trace_identity c ws we)))
          now cfg.policy_names with e | opts <;> rw [hg] at h
      · cases h
      dsimp only at h
      rcases hp : processChunks registry cfg ws we now store rest
        with ⟨po, pc, ph⟩
      rw [hp] at h
      dsimp only at h
      rcases po with e2 | more
      · cases h
      injection h with h1 h2 h3
      injection h1 with h1
      subst h1
      rcases List.mem_cons.mp hchunk with rfl | hchunk'
      · obtain ⟨f, pcfg, hreg, hcfg, hdisj⟩ :=
          gatherPolicies_ok_covered registry cfg chunk ws we
            (_derive_trace_identity chunk ws we) _ now cfg.policy_names opts hg
            n hn
        refine ⟨f, pcfg, hreg, hcfg, ?_⟩
        rcases hdisj with hin | ⟨r, hr, hid⟩
        · left
          by_cases hexp : (chunkExpectedIds cfg
              (_derive_trace_identity chunk ws we)).isEmpty
          · rw [if_pos hexp] at hin
            cases hin
          · rw [if_neg hexp] at hin
            have := (List.mem_filter.mp hin).2
            simpa using this
        · exact Or.inr ⟨r, List.mem_append_left more hr, hid⟩
      · obtain ⟨f, pcfg, hreg, hcfg, hdisj⟩ :=
          ih more pc ph (by rw [hp]) chunk hchunk' hne n hn
        refine ⟨f, pcfg, hreg, hcfg, ?_⟩
        rcases hdisj with hin | ⟨r, hr, hid⟩
        · exact Or.inl hin
        · exact Or.inr ⟨r, List.mem_append_right _ hr, hid⟩

/-- When every non-empty chunk's expected ids are all present in the
store, the chunk loop produces no results. -/
theorem processChunks_all_skip (registry : Registry)
    (cfg : ResolvedAppConfig) (ws we now : String)
    (store2 : List EvaluationResult) :
    ∀ chunks : List (List TelemetryRecord),
      (∀ chunk ∈ chunks, chunk ≠ [] → ∀ n ∈ cfg.policy_names,
        ∃ f pcfg, registry n = some f ∧ findPolicyConfig cfg n = some pcfg ∧
          store2.any (fun r => r.id == _stable_batch_result_id cfg.app_id n
            (_derive_trace_identity chunk ws we) (policyVersionOf pcfg)) = true) →
      ∃ calls handled,
        processChunks registry cfg ws we now store2 chunks =
          ⟨.ok [], calls, handled⟩ := by
  intro chunks
  induction chunks with
  | nil => exact fun _ => ⟨[], false, rfl⟩
  | cons c rest ih =>
    intro h
    obtain ⟨calls, handled, hrest⟩ :=
      ih (fun chunk hchunk => h chunk (List.mem_cons_of_mem c hchunk))
    by_cases hc : c.isEmpty
    · exact ⟨calls, handled, by rw [processChunks, if_pos hc]; exact hrest⟩
    · have hcne : c ≠ [] := fun hnil => by simp [hnil] at hc
      have hskip : ∀ n ∈ cfg.policy_names, ∃ f pcfg, registry n = some f ∧
          findPolicyConfig cfg n = some pcfg ∧
          (if (chunkExpectedIds cfg (_derive_trace_identity c ws we)).isEmpty
            then []
            else results_exist store2
              (chunkExpectedIds cfg (_derive_trace_identity c ws we))).contains
            (_stable_batch_result_id cfg.app_id n (_derive_trace_identity c ws we)
              (policyVersionOf pcfg)) = true := by
        intro n hn
        obtain ⟨f, pcfg, hreg, hcfg, hany⟩ := h c (List.mem_cons_self c rest) hcne n hn
        refine ⟨f, pcfg, hreg, hcfg, ?_⟩
        have hmem : _stable_batch_result_id cfg.app_id n
            (_derive_trace_identity c ws we) (policyVersionOf pcfg) ∈
            chunkExpectedIds cfg (_derive_trace_identity c ws we) :=
          List.mem_filterMap.mpr ⟨n, hn, by rw [hcfg]; rfl⟩
        have hexp : (chunkExpectedIds cfg
            (_derive_trace_identity c ws we)).isEmpty = false := by
          rcases hx : (chunkExpectedIds cfg (_derive_trace_identity c ws we)) with
            _ | _
          · rw [hx] at hmem
            cases hmem
          · rfl
        rw [hexp]
        simp only [Bool.false_eq_true, if_false, results_exist]
        have : _stable_batch_result_id cfg.app_id n
            (_derive_trace_identity c ws we) (policyVersionOf pcfg) ∈
            (chunkExpectedIds cfg (_derive_trace_identity c ws we)).filter
              (fun rid => store2.any (fun r => r.id == rid)) :=
          List.mem_filter.mpr ⟨hmem, hany⟩
        simpa [List.contains, List.elem_iff] using this
      refine ⟨(if (chunkExpectedIds cfg (_derive_trace_identity c ws we)).isEmpty
          then ([] : List RepoCall)
          else [RepoCall.results_exist
            (chunkExpectedIds cfg (_derive_trace_identity c ws we))]) ++ calls,
        true, ?_⟩
      rw [processChunks, if_neg hc]
      dsimp only
      rw [gatherPolicies_all_skip registry cfg c ws we
        (_derive_trace_identity c ws we) _ now cfg.policy_names hskip]
      dsimp only
      rw [hrest]
      dsimp only
      have hnone : (cfg.policy_names.map
          (fun _ => (none : Option EvaluationResult))).filterMap id = [] := by
        simp
      rw [hnone]
      rfl

/-- C1 (amended theorem): when the telemetry stream contains at least one
non-empty chunk, a second `run_for_application` with the same
configuration, telemetry and window against the store left by a first
successful run returns zero new results and leaves the store exactly as
the first run left it. -/
theorem c1_idempotent_rerun (registry : Registry) (cfg : ResolvedAppConfig)
    (chunks : List (List TelemetryRecord)) (ws we now now2 : String)
    (S0 : List EvaluationResult)
    (h1 : (run_for_application registry cfg chunks ws we now S0).outcome.isOk = true)
    (h2 : chunks.any (fun c => !c.isEmpty) = true) :
    (run_for_application registry cfg chunks ws we now2
        ((run_for_application registry cfg chunks ws we now S0).store)).outcome =
      .ok [] ∧
    (run_for_application registry cfg chunks ws we now2
        ((run_for_application registry cfg chunks ws we now S0).store)).store =
      (run_for_application registry cfg chunks ws we now S0).store := by
  rcases hp : processChunks registry cfg ws we now S0 chunks with ⟨po, pc, ph⟩
  rcases po with e | cr
  · exfalso
    rw [run_for_application, hp] at h1
    dsimp only at h1
    cases h1
  have hph : ph = true := by
    rw [processChunks_handled registry cfg ws we now S0 chunks cr pc ph hp, h2]
  subst hph
  have hcov := processChunks_ok_covered registry cfg ws we now S0 chunks cr pc
    true hp
  by_cases hcr : cr.isEmpty
  · have hrun1 : run_for_application registry cfg chunks ws we now S0 =
        ⟨.ok cr, S0, pc⟩ := by
      rw [run_for_application, hp]
      dsimp only
      rw [if_pos (rfl : (true : Bool) = true), if_pos hcr]
    have hcrnil : cr = [] := List.isEmpty_iff.mp hcr
    subst hcrnil
    rw [hrun1]
    dsimp only
    have hcov2 : ∀ chunk ∈ chunks, chunk ≠ [] → ∀ n ∈ cfg.policy_names,
        ∃ f pcfg, registry n = some f ∧ findPolicyConfig cfg n = some pcfg ∧
          S0.any (fun r => r.id == _stable_batch_result_id cfg.app_id n
            (_derive_trace_identity chunk ws we) (policyVersionOf pcfg)) = true := by
      intro chunk hchunk hne n hn
      obtain ⟨f, pcfg, hreg, hcfg, hdisj⟩ := hcov chunk hchunk hne n hn
      refine ⟨f, pcfg, hreg, hcfg, ?_⟩
      rcases hdisj with hin | ⟨r, hr, _⟩
      · exact hin
      · cases hr
    obtain ⟨calls2, handled2, hskip⟩ :=
      processChunks_all_skip registry cfg ws we now2 S0 chunks hcov2
    have hh2 : handled2 = true := by
      rw [processChunks_handled registry cfg ws we now2 S0 chunks [] calls2
        handled2 hskip, h2]
    subst hh2
    rw [run_for_application, hskip]
    dsimp only
    exact ⟨rfl, rfl⟩
  · have hrun1 : run_for_application registry cfg chunks ws we now S0 =
        ⟨.ok cr, S0 ++ cr,
          pc ++ [RepoCall.save_results (cr.map (fun r => r.id))]⟩ := by
      rw [run_for_application, hp]
      dsimp only
      rw [if_pos (rfl : (true : Bool) = true), if_neg hcr]
    rw [hrun1]
    dsimp only
    have hcov2 : ∀ chunk ∈ chunks, chunk ≠ [] → ∀ n ∈ cfg.policy_names,
        ∃ f pcfg, registry n = some f ∧ findPolicyConfig cfg n = some pcfg ∧
          (S0 ++ cr).any (fun r => r.id == _stable_batch_result_id cfg.app_id n
            (_derive_trace_identity chunk ws we) (policyVersionOf pcfg)) = true := by
      intro chunk hchunk hne n hn
      obtain ⟨f, pcfg, hreg, hcfg, hdisj⟩ := hcov chunk hchunk hne n hn
      refine ⟨f, pcfg, hreg, hcfg, ?_⟩
      rw [List.any_append]
      rcases hdisj with hin | ⟨r, hr, hid⟩
      · rw [hin]
        rfl
      · have : cr.any (fun x => x.id == _stable_batch_result_id cfg.app_id n
            (_derive_trace_identity chunk ws we) (policyVersionOf pcfg)) = true :=
          List.any_eq_true.mpr ⟨r, hr, by rw [hid]; exact beq_self_eq_true _⟩
        rw [this]
        simp
    obtain ⟨calls2, handled2, hskip⟩ :=
      processChunks_all_skip registry cfg ws we now2 (S0 ++ cr) chunks hcov2
    have hh2 : handled2 = true := by
      rw [processChunks_handled registry cfg ws we now2 (S0 ++ cr) chunks []
        calls2 handled2 hskip, h2]
    subst hh2
    rw [run_for_application, hskip]
    dsimp only
    exact ⟨rfl, rfl⟩

/-- C1 (witness): the amended theorem on the concrete two-policy
application with one non-empty chunk — the second run returns no
results. -/
theorem c1_idempotent_rerun_witness :
    (run_for_application demoRegistry (cfgTwoPolicies "1.0") [[demoRecord]]
        "ws" "we" "t2"
        ((run_for_application demoRegistry (cfgTwoPolicies "1.0") [[demoRecord]]
          "ws" "we" "t1" []).store)).outcome = .ok [] :=
  (c1_idempotent_rerun demoRegistry (cfgTwoPolicies "1.0") [[demoRecord]]
    "ws" "we" "t1" "t2" [] (by decide) (by decide)).1

/-- C1 (counterexample): with a telemetry source yielding zero chunks,
the synthesized empty evaluation pass bypasses the existence check
(`batch_runner.py` lines 98-114 pass `set()` instead of consulting the
repository), so a second identical run against the same store returns
one result per policy again — not an empty list — and the store ends up
holding two results with the same id. -/
theorem c1_counterexample :
    outcomePolicyNames
        (run_for_application build_policy_registry cfgToxOnly [] "ws" "we" "t2"
          ((run_for_application build_policy_registry cfgToxOnly [] "ws" "we"
            "t1" []).store)) = some [SAFETY_TOXICITY] ∧
    some [SAFETY_TOXICITY] ≠ some ([] : List String) ∧
    ((run_for_application build_policy_registry cfgToxOnly [] "ws" "we" "t2"
        ((run_for_application build_policy_registry cfgToxOnly [] "ws" "we"
          "t1" []).store)).store.map (fun r => r.id)) =
      [_stable_batch_result_id "app1" SAFETY_TOXICITY
        (_derive_trace_identity [] "ws" "we") "1.0",
       _stable_batch_result_id "app1" SAFETY_TOXICITY
        (_derive_trace_identity [] "ws" "we") "1.0"] := by
  refine ⟨by decide, by decide, by decide⟩

/-! ## Failure isolation (claim C7) -/

/-- C7 (counterexample): inside one application, an exception from one
policy's `evaluate` aborts the whole `run_for_application` before the
final `save_results` — here the healthy sibling `p1` of the same
application evaluates first, yet the run raises and persists nothing,
so the sibling's completed work is lost (`asyncio.gather` propagates
the exception and `all_results` is never saved). -/
theorem c7_counterexample :
    (run_for_application demoRegistry cfgBoom [[demoRecord]] "ws" "we" "t1"
      []).outcome = .error "boom" ∧
    (run_for_application demoRegistry cfgBoom [[demoRecord]] "ws" "we" "t1"
      []).store = [] := by
  exact ⟨rfl, rfl⟩

/-- C7 (amended theorem): failure isolation is per application, not per
policy — the driver processes every application of the shard to a
terminal job-item status regardless of failures, recording earlier
items in shard order with a `failed` item for an application whose run
raised; concretely, with the first application raising on its second
policy and the second application healthy, the items read
`[failed, completed]` and the second application's result is still
persisted to the shared store. -/
theorem c7_failure_isolation (registry : Registry)
    (telemetryOf : String → List (List TelemetryRecord)) (ws we now : String)
    (apps : List ResolvedAppConfig) (store : List EvaluationResult) :
    ((process_apps registry telemetryOf ws we now apps store).1.map
        (fun it => it.item_id) = apps.map (fun a => a.app_id)) ∧
    (∀ it ∈ (process_apps registry telemetryOf ws we now apps store).1,
      it.status = "completed" ∨ it.status = "failed") ∧
    ((process_apps demoRegistry (fun _ => [[demoRecord]]) "ws" "we" "t1"
        [cfgBoom, cfgOk] []).1.map (fun it => (it.item_id, it.status)) =
      [("a1", "failed"), ("a2", "completed")]) ∧
    ((process_apps demoRegistry (fun _ => [[demoRecord]]) "ws" "we" "t1"
        [cfgBoom, cfgOk] []).2.map (fun r => r.policy_name) = ["p1"]) := by
  refine ⟨?_, ?_, by decide, by decide⟩
  · induction apps generalizing store with
    | nil => rfl
    | cons a rest ih =>
      rw [process_apps]
      dsimp only
      rcases ho : (run_for_application registry a (telemetryOf a.app_id) ws we
          now store).outcome with e | rs <;>
        simp only [List.map_cons, List.cons.injEq] <;>
        exact ⟨trivial, ih _⟩
  · induction apps generalizing store with
    | nil =>
      intro it hit
      cases hit
    | cons a rest ih =>
      intro it hit
      rw [process_apps] at hit
      dsimp only at hit
      rcases ho : (run_for_application registry a (telemetryOf a.app_id) ws we
          now store).outcome with e | rs <;> rw [ho] at hit <;>
        dsimp only at hit
      · rcases List.mem_cons.mp hit with rfl | h2
        · exact Or.inr rfl
        · exact ih _ it h2
      · rcases List.mem_cons.mp hit with rfl | h2
        · exact Or.inl rfl
        · exact ih _ it h2

/-- C7 (witness): the amended theorem's concrete shard — the first
application fails, the second still completes. -/
theorem c7_failure_isolation_witness :
    (process_apps demoRegistry (fun _ => [[demoRecord]]) "ws" "we" "t1"
        [cfgBoom, cfgOk] []).1.map (fun it => (it.item_id, it.status)) =
      [("a1", "failed"), ("a2", "completed")] :=
  (c7_failure_isolation demoRegistry (fun _ => [[demoRecord]]) "ws" "we" "t1"
    [cfgBoom, cfgOk] []).2.2.1

end AiEval